import Mathlib

/-!
Verification development for a stack-detection tool and its hand-rolled
front-matter renderer and parser.

The embedding below translates, line by line, the Python sources
  hooks/lib/read-config.py      (namespace-free parser definitions)
  hooks/lib/detect-stack.py     (two variants: namespaces LBYL and SD)
into executable Lean definitions.  Python strings are modelled as
`List Char` at the ASCII level (regex classes \s and \w, str.strip,
str.isdigit, str.lower are modelled by their ASCII meaning), Python
dictionaries as association lists in insertion order (assignment keeps
the position of an existing key, a new key is appended), and the
filesystem as a read-only oracle record.
-/

/-- Python values appearing in the parsed front matter and in the data
fed to the renderer: strings, booleans, integers (from coercion of digit
strings), lists and nested dictionaries. -/
inductive PyVal where
  | str : String → PyVal
  | bool : Bool → PyVal
  | int : Nat → PyVal
  | list : List PyVal → PyVal
  | dict : List (String × PyVal) → PyVal

/-- Association-list dictionary with PyVal values, insertion order kept. -/
abbrev PDict := List (String × PyVal)

/-- Association-list dictionary with string values. -/
abbrev SDict := List (String × String)

/-- Python dict assignment d[k] = v: replace in place if the key exists,
append otherwise. -/
def dictSetP : PDict → String → PyVal → PDict
  | [], k, v => [(k, v)]
  | (k0, v0) :: rest, k, v =>
      if k0 = k then (k, v) :: rest else (k0, v0) :: dictSetP rest k v

/-- Same assignment operation for string-valued dictionaries. -/
def dictSetS : SDict → String → String → SDict
  | [], k, v => [(k, v)]
  | (k0, v0) :: rest, k, v =>
      if k0 = k then (k, v) :: rest else (k0, v0) :: dictSetS rest k v

/-- Lookup in a PyVal dictionary (first occurrence of the key). -/
def lookupP (k : String) : PDict → Option PyVal
  | [] => none
  | (k0, v0) :: rest => if k0 = k then some v0 else lookupP k rest

/-- Lookup in a string dictionary (first occurrence of the key). -/
def lookupS (k : String) : SDict → Option String
  | [] => none
  | (k0, v0) :: rest => if k0 = k then some v0 else lookupS k rest

/-- Python `k in d` membership test on a string dictionary. -/
def hasKeyS (k : String) (d : SDict) : Bool := (lookupS k d).isSome

/-- Python `k in d` membership test on a PyVal dictionary. -/
def hasKeyP (k : String) (d : PDict) : Bool := (lookupP k d).isSome

/-- In-place modification of the value stored under a key (used to model
mutation of a nested dictionary or list reached through the parse result). -/
def dictModifyP : PDict → String → (PyVal → PyVal) → PDict
  | [], _, _ => []
  | (k0, v0) :: rest, k, f =>
      if k0 = k then (k0, f v0) :: rest else (k0, v0) :: dictModifyP rest k f

/-- ASCII model of the Python regex class \s and of the characters
stripped by str.strip(). -/
def isPySpace (c : Char) : Bool :=
  c = ' ' || c = '\t' || c = '\n' || c = '\r' || c = '\x0b' || c = '\x0c'

/-- ASCII model of the Python regex class [\w_]. -/
def isWordChar (c : Char) : Bool :=
  (('a' ≤ c && c ≤ 'z') || ('A' ≤ c && c ≤ 'Z') || ('0' ≤ c && c ≤ '9') || c = '_')

/-- str.strip(): remove leading and trailing whitespace. -/
def pyStrip (l : List Char) : List Char :=
  ((l.dropWhile isPySpace).reverse.dropWhile isPySpace).reverse

/-- str.lower() at the ASCII level. -/
def pyLower (l : List Char) : List Char := l.map Char.toLower

/-- Does `pat` stand at the front of `l`? -/
def leadsWith : List Char → List Char → Bool
  | [], _ => true
  | _ :: _, [] => false
  | p :: ps, c :: cs => p = c && leadsWith ps cs

/-- Index of the first occurrence of `pat` as a contiguous sublist. -/
def findSub (pat : List Char) : List Char → Option Nat
  | [] => if pat = [] then some 0 else none
  | c :: rest =>
      if leadsWith pat (c :: rest) then some 0
      else (findSub pat rest).map (· + 1)

/-- Python `pat in s` substring test. -/
def containsSub (pat : List Char) (l : List Char) : Bool := (findSub pat l).isSome

/-- Number of positions at which `pat` occurs as a contiguous sublist. -/
def countOcc (pat : List Char) : List Char → Nat
  | [] => 0
  | c :: rest => (if leadsWith pat (c :: rest) then 1 else 0) + countOcc pat rest

/-- text.split(given one separator char): Python splitting semantics,
"".split(c) = [""] included. -/
def splitNl : List Char → List (List Char)
  | [] => [[]]
  | c :: rest =>
      if c = '\n' then [] :: splitNl rest
      else
        match splitNl rest with
        | [] => [[c]]
        | l :: ls => (c :: l) :: ls

/-- "\n".join(lines). -/
def joinNl : List (List Char) → List Char
  | [] => []
  | [l] => l
  | l :: l2 :: rest => l ++ '\n' :: joinNl (l2 :: rest)

/-- Numeric value of a digit string, as computed by int(). -/
def digitsVal (l : List Char) : Nat :=
  l.foldl (fun n c => 10 * n + (c.toNat - '0'.toNat)) 0

/-- read-config.py _coerce: case-insensitive true and false literals
become booleans, digit strings become integers, a value whose first and
last character are the same quote character loses those two characters,
anything else stays a string.  (A single quote character is its own
first and last character and coerces to the empty string, exactly as in
Python.) -/
def _coerce (val : List Char) : PyVal :=
  if pyLower val = "true".data then .bool true
  else if pyLower val = "false".data then .bool false
  else if val ≠ [] && val.all Char.isDigit then .int (digitsVal val)
  else
    match val with
    | c :: _ :: _ =>
        if (c = '"' && val.getLast? = some '"')
            || (c = '\'' && val.getLast? = some '\'') then
          .str (String.mk (val.drop 1).dropLast)
        else .str (String.mk val)
    | [c] =>
        if c = '"' || c = '\'' then .str "" else .str (String.mk val)
    | [] => .str ""

/-- Model of re.match applied to the list-item pattern (whitespace, a
dash, whitespace, then at least one character), returning
group(1).strip() as the code uses it.  The group is the rest of the
line after the whitespace that follows the dash; stripping it equals
stripping the remainder of the line after dropping that whitespace. -/
def listItemMatch (line : List Char) : Option (List Char) :=
  if line.takeWhile isPySpace = [] then none
  else
    match line.dropWhile isPySpace with
    | '-' :: c :: d :: rest =>
        if isPySpace c then some (pyStrip ((c :: d :: rest).dropWhile isPySpace))
        else none
    | _ => none

/-- Model of re.match applied to the indented-child pattern (whitespace,
a word key, optional whitespace, a colon, then the rest), returning the
key and group(2).strip(). -/
def childMatch (line : List Char) : Option (List Char × List Char) :=
  if line.takeWhile isPySpace = [] then none
  else
    let l1 := line.dropWhile isPySpace
    let key := l1.takeWhile isWordChar
    if key = [] then none
    else
      match (l1.drop key.length).dropWhile isPySpace with
      | ':' :: rest => some (key, pyStrip rest)
      | _ => none

/-- Model of re.match applied to the top-level-key pattern (a word key at
column zero, optional whitespace, a colon, then the rest). -/
def topMatch (line : List Char) : Option (List Char × List Char) :=
  let key := line.takeWhile isWordChar
  if key = [] then none
  else
    match (line.drop key.length).dropWhile isPySpace with
    | ':' :: rest => some (key, pyStrip rest)
    | _ => none

/-- Parser state of the line loop in parse_frontmatter: the result
mapping, the current parent key, and the current (parent, child) list
target. -/
structure PState where
  result : PDict
  parent : Option String
  clist : Option (String × String)

/-- result[p][k].append(v).  The loop only appends while the current
list target is active, and the target is installed immediately after
result[p][k] was assigned the empty list, so in every reachable state
the addressed entry is a dictionary holding a list; the fallback arms
of the matches below are never reached. -/
def appendItem (res : PDict) (p k : String) (v : PyVal) : PDict :=
  dictModifyP res p fun pv =>
    match pv with
    | .dict d =>
        .dict (dictModifyP d k fun cv =>
          match cv with
          | .list l => .list (l ++ [v])
          | cv => cv)
    | pv => pv

/-- result[p][k] = v.  The parent key is only current while result[p]
is a dictionary, so the fallback arm is never reached. -/
def setChild (res : PDict) (p k : String) (v : PyVal) : PDict :=
  dictModifyP res p fun pv =>
    match pv with
    | .dict d => .dict (dictSetP d k v)
    | pv => pv

/-- One iteration of the line loop of parse_frontmatter.  Mirrors the
Python control flow: blank and comment lines first (a blank line clears
the parent, a comment line keeps it, both clear the list target), then
the list-item branch (taken only while a list target is active), then —
with the list target cleared — the indented-child branch guarded by a
two-space prefix and a current parent, and finally the top-level-key
branch.  Unmatched lines are ignored. -/
def processLine (st : PState) (line : List Char) : PState :=
  if pyStrip line = [] then ⟨st.result, none, none⟩
  else if (pyStrip line).head? = some '#' then ⟨st.result, st.parent, none⟩
  else
    match listItemMatch line, st.clist with
    | some item, some pk =>
        ⟨appendItem st.result pk.1 pk.2 (_coerce item), st.parent, st.clist⟩
    | _, _ =>
        match (if leadsWith "  ".data line then st.parent else none) with
        | some p =>
            match childMatch line with
            | some (key, val) =>
                if val ≠ [] then
                  ⟨setChild st.result p (String.mk key) (_coerce val), st.parent, none⟩
                else
                  ⟨setChild st.result p (String.mk key) (.list []),
                    st.parent, some (p, String.mk key)⟩
            | none => ⟨st.result, st.parent, none⟩
        | none =>
            match topMatch line with
            | some (key, val) =>
                if val ≠ [] then
                  ⟨dictSetP st.result (String.mk key) (_coerce val), none, none⟩
                else
                  ⟨dictSetP st.result (String.mk key) (.dict []),
                    some (String.mk key), none⟩
            | none => ⟨st.result, st.parent, none⟩

/-- The line loop over all lines of the front-matter body. -/
def processLines (lines : List (List Char)) (st : PState) : PState :=
  lines.foldl processLine st

/-- The three-dash front-matter marker. -/
def dashMarker : List Char := ['-', '-', '-']

/-- The pattern "\n---" closing the front-matter body. -/
def nlMarker : List Char := '\n' :: dashMarker

/-- One backtracking attempt of the opening regex: the quantified
whitespace has length i, so the character at i must be the newline and
the lazily matched body runs to the first later occurrence of "\n---". -/
def fmAt (rest : List Char) (i : Nat) : Option (List Char) :=
  if rest.get? i = some '\n' then
    (findSub nlMarker (rest.drop (i + 1))).map fun idx => (rest.drop (i + 1)).take idx
  else none

/-- Backtracking of the greedy whitespace quantifier: the longest
whitespace run is tried first, then shorter ones. -/
def fmTry (rest : List Char) : Nat → Option (List Char)
  | 0 => fmAt rest 0
  | i + 1 =>
      match fmAt rest (i + 1) with
      | some b => some b
      | none => fmTry rest i

/-- Model of re.match applied to the front-matter pattern (three dashes
at the start, whitespace, a newline, a lazy body, then a newline and
three dashes) with DOTALL, returning group(1): the text must open with
"---", the greedy whitespace run is tried longest first and must end at
a newline, and the body extends to the first following "\n---". -/
def extractFM (text : List Char) : Option (List Char) :=
  if leadsWith dashMarker text then
    let rest := text.drop 3
    fmTry rest (rest.takeWhile isPySpace).length
  else none

/-- read-config.py parse_frontmatter: extract the front-matter body and
run the line loop over its lines; an empty mapping when the pattern does
not match. -/
def parse_frontmatter (text : List Char) : PDict :=
  match extractFM text with
  | none => []
  | some body => (processLines (splitNl body) ⟨[], none, none⟩).result

/-- detect-stack.py _yaml_val: booleans render as the literals true and
false, anything else as its str() form. -/
def yaml_val (v : PyVal) : List Char :=
  match v with
  | .bool b => if b then "true".data else "false".data
  | .str s => s.data
  | .int n => (Nat.toDigits 10 n).map id
  | .list _ => []
  | .dict _ => []

/-- str(item) as used for list items in the structure block; the
renderer is only ever applied to two-level data of scalars and lists of
strings, so the list and dict arms are unreachable there. -/
def pyStr (v : PyVal) : List Char :=
  match v with
  | .str s => s.data
  | .bool b => if b then "True".data else "False".data
  | .int n => (Nat.toDigits 10 n).map id
  | .list _ => []
  | .dict _ => []

/-- A rendered scalar line of a block: two spaces, key, colon, space,
rendered value. -/
def scalarLine (k : String) (v : PyVal) : List Char :=
  ' ' :: ' ' :: (k.data ++ ':' :: ' ' :: yaml_val v)

/-- A rendered block header line: key and colon at column zero. -/
def headerLine (name : String) : List Char := name.data ++ [':']

/-- A rendered bare key line opening a list inside a block: two spaces,
key, colon, no value. -/
def listKeyLine (k : String) : List Char := ' ' :: ' ' :: (k.data ++ [':'])

/-- A rendered list item line: four spaces, dash, space, item. -/
def itemLine (v : PyVal) : List Char :=
  ' ' :: ' ' :: ' ' :: ' ' :: '-' :: ' ' :: pyStr v

/-- The lines of the stack block (omitted when the profile is empty). -/
def stackLines (stack : PDict) : List (List Char) :=
  if stack.isEmpty then []
  else headerLine "stack" :: stack.map fun e => scalarLine e.1 e.2

/-- The lines contributed by one structure entry: a list value renders
as a bare key line followed by item lines, a scalar as a scalar line. -/
def structEntryLines (e : String × PyVal) : List (List Char) :=
  match e.2 with
  | .list items => listKeyLine e.1 :: items.map itemLine
  | v => [scalarLine e.1 v]

/-- The lines of the structure block (omitted when empty). -/
def structureLines (structure_ : PDict) : List (List Char) :=
  if structure_.isEmpty then []
  else headerLine "structure" :: structure_.flatMap structEntryLines

/-- The lines of the verification block (omitted when empty). -/
def verificationLines (verification : PDict) : List (List Char) :=
  if verification.isEmpty then []
  else headerLine "verification" :: verification.map fun e => scalarLine e.1 e.2

/-- The lines of the disciplines block (omitted when empty). -/
def disciplinesLines (disciplines : PDict) : List (List Char) :=
  if disciplines.isEmpty then []
  else headerLine "disciplines" :: disciplines.map fun e => scalarLine e.1 e.2

/-- The fixed trailing lines after the closing marker. -/
def trailerLines : List (List Char) :=
  ["---".data, [], "# Project Notes".data, [],
   "Add project-specific context here (optional, free-form).".data, []]

/-- detect-stack.py render_config: opening marker, the four blocks in
the fixed order stack, structure, verification, disciplines (each
omitted when empty), closing marker, blank line and trailing prose,
joined by newlines. -/
def render_config (stack structure_ disciplines verification : PDict) : List Char :=
  joinNl (["---".data] ++ stackLines stack ++ structureLines structure_
    ++ verificationLines verification ++ disciplinesLines disciplines ++ trailerLines)

/-! ## detect-stack.py: filesystem model and shared helpers

Both hook variants carry their own copy of detect-stack.py; the
definitions below that are byte-identical in the two copies are defined
once, the differing functions live in the namespaces LBYL
(look-before-you-leap) and SD (software-discipline). -/

/-- Model of one JSON manifest as the code reads it: the declared name,
the key sets of the three dependency mappings, the scripts mapping, the
presence of a workspaces key, and the names of any further top-level
keys (needed only for Python truthiness of the whole object).  A
dependency-kind field whose JSON value is not a mapping contributes
nothing in the code (isinstance guard) and is modelled as absent. -/
structure Manifest where
  name : Option String := none
  dependencies : Option (List String) := none
  devDependencies : Option (List String) := none
  peerDependencies : Option (List String) := none
  scripts : Option SDict := none
  workspaces : Bool := false
  extraKeys : List String := []
deriving DecidableEq

/-- Python truthiness of the manifest object: an empty JSON object is
falsy. -/
def Manifest.isFalsy (m : Manifest) : Bool :=
  m.name = none && m.dependencies = none && m.devDependencies = none &&
    m.peerDependencies = none && m.scripts = none && !m.workspaces && m.extraKeys.isEmpty

/-- The filesystem as a read-only oracle: which paths are files, which
are directories, the immediate listing of a directory, and the parsed
manifest behind a path (read_json returns None on a missing, unreadable
or malformed file; an OSError from a listing is modelled by whatever
list the oracle returns for it, the code only iterates over it). -/
structure FS where
  files : List String
  dirs : List String
  listing : String → List String
  manifests : String → Option Manifest

/-- detect-stack.py file_exists. -/
def file_exists (fs : FS) (p : String) : Bool := fs.files.contains p

/-- detect-stack.py dir_exists. -/
def dir_exists (fs : FS) (p : String) : Bool := fs.dirs.contains p

/-- detect-stack.py read_json: None on any failure. -/
def read_json (fs : FS) (p : String) : Option Manifest := fs.manifests p

/-- The fixed workspace-parent directory names scanned by the tool. -/
def workspaceParents : List String := ["apps", "packages", "services", "libs"]

/-- sorted() over directory entries, lexicographic by code point. -/
def sortStrings (l : List String) : List String := l.mergeSort (fun a b => a ≤ b)

/-- detect_package_manager: ordered lockfile checks, identical in both
variants. -/
def detect_package_manager (fs : FS) (root : String) : String :=
  if file_exists fs (root ++ "/pnpm-lock.yaml") then "pnpm"
  else if file_exists fs (root ++ "/bun.lockb") || file_exists fs (root ++ "/bun.lock") then "bun"
  else if file_exists fs (root ++ "/yarn.lock") then "yarn"
  else if file_exists fs (root ++ "/package-lock.json") then "npm"
  else ""

/-- detect_monorepo: four marker files, or a workspaces field in a
truthy root manifest; identical in both variants. -/
def detect_monorepo (fs : FS) (root : String) : Bool :=
  if file_exists fs (root ++ "/pnpm-workspace.yaml") then true
  else if file_exists fs (root ++ "/turbo.json") then true
  else if file_exists fs (root ++ "/lerna.json") then true
  else if file_exists fs (root ++ "/nx.json") then true
  else
    match read_json fs (root ++ "/package.json") with
    | none => false
    | some pkg => !pkg.isFalsy && pkg.workspaces

/-- The dependency names contributed by one manifest: the keys of its
three dependency mappings, in order. -/
def Manifest.depNames (m : Manifest) : List String :=
  m.dependencies.getD [] ++ m.devDependencies.getD [] ++ m.peerDependencies.getD []

/-- collect_all_deps: dependency names of the root manifest and of every
workspace-member manifest one level under an existing workspace parent;
identical in both variants.  The Python value is a set queried only by
membership; it is modelled as the list of collected names, and theorem
C9 shows the classifier depends only on membership in it. -/
def collect_all_deps (fs : FS) (root : String) : List String :=
  (match read_json fs (root ++ "/package.json") with
    | none => []
    | some m => m.depNames) ++
  workspaceParents.flatMap fun parent =>
    if dir_exists fs (root ++ "/" ++ parent) then
      (fs.listing (root ++ "/" ++ parent)).flatMap fun entry =>
        match read_json fs (root ++ "/" ++ parent ++ "/" ++ entry ++ "/package.json") with
        | none => []
        | some m => m.depNames
    else []

/-- The frontend priority table, in source order. -/
def frontend_map : SDict :=
  [("react", "react"), ("react-dom", "react"), ("next", "next"),
   ("vue", "vue"), ("nuxt", "nuxt"), ("svelte", "svelte"),
   ("@sveltejs/kit", "sveltekit"), ("solid-js", "solid"),
   ("@angular/core", "angular")]

/-- The backend priority table, in source order. -/
def backend_map : SDict :=
  [("hono", "hono"), ("express", "express"), ("fastify", "fastify"),
   ("@nestjs/core", "nestjs"), ("koa", "koa")]

/-- The validation priority table, in source order. -/
def validation_map : SDict :=
  [("zod", "zod"), ("valibot", "valibot"), ("joi", "joi"),
   ("yup", "yup"), ("ajv", "ajv")]

/-- The styling priority table, in source order. -/
def styling_map : SDict :=
  [("tailwindcss", "tailwind"), ("@tailwindcss/postcss", "tailwind"),
   ("styled-components", "styled-components"), ("@emotion/react", "emotion")]

/-- The testing priority table, in source order. -/
def testing_map : SDict :=
  [("vitest", "vitest"), ("jest", "jest"), ("@playwright/test", "playwright"),
   ("cypress", "cypress"), ("mocha", "mocha")]

/-- The orm priority table, in source order. -/
def orm_map : SDict :=
  [("drizzle-orm", "drizzle"), ("prisma", "prisma"), ("@prisma/client", "prisma"),
   ("convex", "convex"), ("typeorm", "typeorm"), ("sequelize", "sequelize"),
   ("kysely", "kysely"), ("mongoose", "mongoose")]

/-- One category scan: iterate the table in order, the first dependency
name present in the set assigns the category and stops the scan (the
for-break loop of the source, rendered as find?). -/
def tableAssign (tbl : SDict) (cat : String) (deps : List String) (r : SDict) : SDict :=
  match tbl.find? (fun e => deps.contains e.1) with
  | some e => dictSetS r cat e.2
  | none => r

/-- bool(detected.get("backend")): absent and the empty string are
falsy; identical in both variants (should_enable_api_contracts). -/
def should_enable_api_contracts (detected : SDict) : Bool :=
  match lookupS "backend" detected with
  | none => false
  | some s => !s.isEmpty

namespace LBYL

/-- look-before-you-leap detect_language: root tsconfig markers, then a
fallback scan one level into workspace parents for a nested
tsconfig.json, then the package.json / Cargo.toml / pyproject.toml or
setup.py / go.mod chain; empty string when nothing matches. -/
def detect_language (fs : FS) (root : String) : String :=
  if file_exists fs (root ++ "/tsconfig.json")
      || file_exists fs (root ++ "/tsconfig.base.json") then "typescript"
  else if workspaceParents.any (fun parent =>
      dir_exists fs (root ++ "/" ++ parent) &&
      (fs.listing (root ++ "/" ++ parent)).any fun entry =>
        file_exists fs (root ++ "/" ++ parent ++ "/" ++ entry ++ "/tsconfig.json")) then
    "typescript"
  else if file_exists fs (root ++ "/package.json") then "javascript"
  else if file_exists fs (root ++ "/Cargo.toml") then "rust"
  else if file_exists fs (root ++ "/pyproject.toml")
      || file_exists fs (root ++ "/setup.py") then "python"
  else if file_exists fs (root ++ "/go.mod") then "go"
  else ""

/-- look-before-you-leap detect_runtime: the bun package manager wins
outright, otherwise typescript or javascript imply node. -/
def detect_runtime (language package_manager : String) : String :=
  if package_manager = "bun" then "bun"
  else if language = "typescript" || language = "javascript" then "node"
  else ""

/-- look-before-you-leap detect_from_deps: the six category scans in
source order, the pre-table next rule guarded by an unset frontend, and
the bun-test script fallback for an unset testing category. -/
def detect_from_deps (deps : List String) (root_scripts : SDict)
    (package_manager : String) : SDict :=
  let r1 := tableAssign frontend_map "frontend" deps []
  let r2 := if deps.contains "next" && !hasKeyS "frontend" r1 then
      dictSetS r1 "backend" "next" else r1
  let r3 := tableAssign backend_map "backend" deps r2
  let r4 := tableAssign validation_map "validation" deps r3
  let r5 := tableAssign styling_map "styling" deps r4
  let r6 := tableAssign testing_map "testing" deps r5
  let r7 := if !hasKeyS "testing" r6 && package_manager = "bun" &&
      (containsSub "bun test".data ((lookupS "test" root_scripts).getD "").data
        || containsSub "bun run test".data ((lookupS "test" root_scripts).getD "").data) then
    dictSetS r6 "testing" "bun-test" else r6
  tableAssign orm_map "orm" deps r7

/-- look-before-you-leap detect_structure: for each existing workspace
parent, walk its entries in sorted order; under packages an entry whose
lower-cased name contains api records the shared API package name, and
every named package is appended to the shared_packages sequence; under
apps the entry name selects the api or web directory. -/
def detect_structure (fs : FS) (root : String) (is_monorepo : Bool) : PDict :=
  if !is_monorepo then []
  else
    let scan := workspaceParents.foldl (fun (acc : PDict × List String) parent =>
      if dir_exists fs (root ++ "/" ++ parent) then
        (sortStrings (fs.listing (root ++ "/" ++ parent))).foldl (fun acc entry =>
          match read_json fs (root ++ "/" ++ parent ++ "/" ++ entry ++ "/package.json") with
          | none => acc
          | some pkg =>
            if pkg.isFalsy then acc
            else
              let name := pkg.name.getD ""
              let entry_path := parent ++ "/" ++ entry
              if parent = "packages" then
                (let st := if containsSub "api".data (pyLower entry.data) then
                    dictSetP acc.1 "shared_api_package" (.str name) else acc.1
                 let sp := if !name.isEmpty then acc.2 ++ [entry_path] else acc.2
                 (st, sp))
              else if parent = "apps" then
                (if ["api", "server", "backend"].contains (String.mk (pyLower entry.data)) then
                  (dictSetP acc.1 "api_dir" (.str entry_path), acc.2)
                else if ["web", "app", "client", "frontend"].contains
                    (String.mk (pyLower entry.data)) then
                  (dictSetP acc.1 "web_dir" (.str entry_path), acc.2)
                else acc)
              else acc) acc
      else acc) ([], [])
    if scan.2.isEmpty then scan.1
    else dictSetP scan.1 "shared_packages" (.list (scan.2.map .str))

/-- The script-name to category table of detect_verification_commands,
in source order. -/
def script_map : SDict :=
  [("typecheck", "typecheck"), ("type-check", "typecheck"), ("tsc", "typecheck"),
   ("tsgo", "typecheck"), ("check-types", "typecheck"),
   ("lint", "lint"), ("eslint", "lint"),
   ("test", "test"), ("test:unit", "test"),
   ("build", "build")]

/-- One step of the detect_verification_commands loop: a script present
in the manifest whose category is still unfilled assigns the category. -/
def verifStep (scripts : SDict) (commands : SDict) (e : String × String) : SDict :=
  if hasKeyS e.1 scripts && !hasKeyS e.2 commands then dictSetS commands e.2 e.1
  else commands

/-- The loop of detect_verification_commands over the fixed script
table. -/
def verifFromScripts (scripts : SDict) : SDict :=
  script_map.foldl (verifStep scripts) []

/-- look-before-you-leap detect_verification_commands: empty on an
absent or falsy manifest or an absent or empty scripts mapping,
otherwise the table fold over the scripts. -/
def detect_verification_commands (fs : FS) (root : String) : SDict :=
  match read_json fs (root ++ "/package.json") with
  | none => []
  | some pkg =>
      if pkg.isFalsy then []
      else
        let scripts := pkg.scripts.getD []
        if scripts.isEmpty then [] else verifFromScripts scripts

/-- The four mappings produced by build_config. -/
structure Config where
  stack : PDict
  structure_ : PDict
  disciplines : PDict
  verification : PDict

/-- look-before-you-leap build_config.  The stack dictionary is built by
successive assignments of fresh keys and one update with the
detect_from_deps result, whose keys are disjoint from the earlier ones,
so the insertion order is the concatenation below. -/
def build_config (fs : FS) (root : String) : Config :=
  let language := detect_language fs root
  let package_manager := detect_package_manager fs root
  let runtime := detect_runtime language package_manager
  let is_monorepo := detect_monorepo fs root
  let root_scripts := match read_json fs (root ++ "/package.json") with
    | none => []
    | some pkg => if pkg.isFalsy then [] else pkg.scripts.getD []
  let deps := if language = "typescript" || language = "javascript" then
      collect_all_deps fs root else []
  let from_deps := detect_from_deps deps root_scripts package_manager
  let structure_ := detect_structure fs root is_monorepo
  let verification := (detect_verification_commands fs root).map
    fun e => (e.1, PyVal.str e.2)
  let stack :=
    (if language ≠ "" then [("language", PyVal.str language)] else []) ++
    (if runtime ≠ "" then [("runtime", PyVal.str runtime)] else []) ++
    (if package_manager ≠ "" then [("package_manager", PyVal.str package_manager)] else []) ++
    [("monorepo", PyVal.bool is_monorepo)] ++
    from_deps.map fun e => (e.1, PyVal.str e.2)
  let disciplines :=
    [("api_contracts", PyVal.bool (should_enable_api_contracts from_deps)),
     ("plan_enforcement", PyVal.bool true)]
  ⟨stack, structure_, disciplines, verification⟩

end LBYL

namespace SD

/-- software-discipline detect_language: the same chain without the
workspace fallback scan. -/
def detect_language (fs : FS) (root : String) : String :=
  if file_exists fs (root ++ "/tsconfig.json")
      || file_exists fs (root ++ "/tsconfig.base.json") then "typescript"
  else if file_exists fs (root ++ "/package.json") then "javascript"
  else if file_exists fs (root ++ "/Cargo.toml") then "rust"
  else if file_exists fs (root ++ "/pyproject.toml")
      || file_exists fs (root ++ "/setup.py") then "python"
  else if file_exists fs (root ++ "/go.mod") then "go"
  else ""

/-- software-discipline detect_runtime: derived from the language alone,
the package manager is not consulted. -/
def detect_runtime (language : String) : String :=
  if language = "typescript" || language = "javascript" then "node"
  else ""

/-- software-discipline detect_from_deps: the six category scans and the
pre-table next rule, without the bun-test fallback. -/
def detect_from_deps (deps : List String) : SDict :=
  let r1 := tableAssign frontend_map "frontend" deps []
  let r2 := if deps.contains "next" && !hasKeyS "frontend" r1 then
      dictSetS r1 "backend" "next" else r1
  let r3 := tableAssign backend_map "backend" deps r2
  let r4 := tableAssign validation_map "validation" deps r3
  let r5 := tableAssign styling_map "styling" deps r4
  let r6 := tableAssign testing_map "testing" deps r5
  tableAssign orm_map "orm" deps r6

/-- software-discipline detect_structure: only apps and packages are
scanned, the shared API package under packages also records shared_dir,
and there is no shared_packages sequence. -/
def detect_structure (fs : FS) (root : String) (is_monorepo : Bool) : PDict :=
  if !is_monorepo then []
  else
    ["apps", "packages"].foldl (fun (acc : PDict) parent =>
      if dir_exists fs (root ++ "/" ++ parent) then
        (sortStrings (fs.listing (root ++ "/" ++ parent))).foldl (fun acc entry =>
          match read_json fs (root ++ "/" ++ parent ++ "/" ++ entry ++ "/package.json") with
          | none => acc
          | some pkg =>
            if pkg.isFalsy then acc
            else
              let name := pkg.name.getD ""
              let entry_path := parent ++ "/" ++ entry
              let a1 := if containsSub "api".data (pyLower entry.data) && parent = "packages" then
                  dictSetP (dictSetP acc "shared_api_package" (.str name))
                    "shared_dir" (.str entry_path)
                else acc
              let a2 := if ["api", "server", "backend"].contains
                    (String.mk (pyLower entry.data)) && parent = "apps" then
                  dictSetP a1 "api_dir" (.str entry_path)
                else a1
              if ["web", "app", "client", "frontend"].contains
                    (String.mk (pyLower entry.data)) && parent = "apps" then
                dictSetP a2 "web_dir" (.str entry_path)
              else a2) acc
      else acc) []

/-- software-discipline build_config: three mappings, no verification
extraction, runtime derived from the language alone. -/
def build_config (fs : FS) (root : String) : PDict × PDict × PDict :=
  let language := detect_language fs root
  let runtime := detect_runtime language
  let package_manager := detect_package_manager fs root
  let is_monorepo := detect_monorepo fs root
  let deps := if language = "typescript" || language = "javascript" then
      collect_all_deps fs root else []
  let from_deps := detect_from_deps deps
  let structure_ := detect_structure fs root is_monorepo
  let stack :=
    (if language ≠ "" then [("language", PyVal.str language)] else []) ++
    (if runtime ≠ "" then [("runtime", PyVal.str runtime)] else []) ++
    (if package_manager ≠ "" then [("package_manager", PyVal.str package_manager)] else []) ++
    [("monorepo", PyVal.bool is_monorepo)] ++
    from_deps.map fun e => (e.1, PyVal.str e.2)
  let disciplines :=
    [("api_contracts", PyVal.bool (should_enable_api_contracts from_deps)),
     ("plan_enforcement", PyVal.bool true)]
  (stack, structure_, disciplines)

end SD

/-! ## Concrete filesystems used by counterexamples and witnesses -/

/-- A root whose manifest exists but is the empty JSON object, with no
other files, directories or lockfiles. -/
def fsEmptyManifest : FS :=
  { files := ["r/package.json"], dirs := [], listing := fun _ => [],
    manifests := fun p => if p = "r/package.json" then some {} else none }

/-- A root with a bun lockfile and a root tsconfig.json and nothing
else. -/
def fsBunLock : FS :=
  { files := ["r/bun.lock", "r/tsconfig.json"], dirs := [], listing := fun _ => [],
    manifests := fun _ => none }

/-- A root with no root-level typescript marker but a tsconfig.json one
level inside the apps workspace parent. -/
def fsNestedTs : FS :=
  { files := ["r/apps/web/tsconfig.json"], dirs := ["r/apps"],
    listing := fun p => if p = "r/apps" then ["web"] else [],
    manifests := fun _ => none }

/-! ## C1 machinery: value shapes that survive the round trip -/

/-- A key that the parser grammar accepts: non-empty, word characters
only. -/
def wordKey (s : String) : Bool := !s.data.isEmpty && s.data.all isWordChar

/-- A string value whose rendered form parses back unchanged: non-empty,
newline-free, strip-invariant, and left alone by the coercion. -/
def safeStr (s : String) : Bool :=
  !s.data.isEmpty && s.data.all (· ≠ '\n') && (pyStrip s.data == s.data) &&
    (match _coerce s.data with
     | .str t => t == s
     | _ => false)

/-- A scalar the renderer can emit into a block line: a safe string or a
boolean. -/
def scalarOk : PyVal → Bool
  | .str s => safeStr s
  | .bool _ => true
  | _ => false

/-- A structure value: a scalar, or a list of safe strings. -/
def structValOk : PyVal → Bool
  | .list items => items.all fun it =>
      match it with
      | .str s => safeStr s
      | _ => false
  | v => scalarOk v

/-- Keys of an association list are pairwise distinct. -/
def noDupKeys : PDict → Bool
  | [] => true
  | (k, _) :: rest => rest.all (fun e => e.1 ≠ k) && noDupKeys rest

/-- Well-formedness of one block: word keys, admissible values,
distinct keys. -/
def blockOk (vOk : PyVal → Bool) (entries : PDict) : Bool :=
  entries.all (fun e => wordKey e.1 && vOk e.2) && noDupKeys entries

/-- The contribution of one block to the parsed result. -/
def expectedBlock (name : String) (entries : PDict) : PDict :=
  if entries.isEmpty then [] else [(name, PyVal.dict entries)]

/-- The mapping the parser reproduces from a rendered document. -/
def expectedRoundTrip (stack structure_ verification disciplines : PDict) : PDict :=
  expectedBlock "stack" stack ++ expectedBlock "structure" structure_ ++
    expectedBlock "verification" verification ++ expectedBlock "disciplines" disciplines

/-- The four blocks of a document in render order, names paired with
entries. -/
def renderSpecs (stack structure_ verification disciplines : PDict) :
    List (String × PDict) :=
  [("stack", stack), ("structure", structure_),
   ("verification", verification), ("disciplines", disciplines)]

/-- The inner front-matter lines contributed by a list of blocks. -/
def specLines (specs : List (String × PDict)) : List (List Char) :=
  specs.flatMap fun b =>
    if b.2.isEmpty then [] else headerLine b.1 :: b.2.flatMap structEntryLines

/-- The parsed result contributed by a list of blocks. -/
def specExpected (specs : List (String × PDict)) : PDict :=
  specs.flatMap fun b => if b.2.isEmpty then [] else [(b.1, PyVal.dict b.2)]

/-- Properties of every inner front-matter line of a rendered document:
non-empty, newline-free, and not opening with a dash. -/
def lineOkC (l : List Char) : Prop :=
  l ≠ [] ∧ (∀ ch ∈ l, ch ≠ '\n') ∧ ∀ c0, l.head? = some c0 → c0 ≠ '-'

set_option maxRecDepth 100000 in
example :
    parse_frontmatter (render_config
      [("language", .str "typescript"), ("monorepo", .bool true)]
      [("shared_packages", .list [.str "packages/i18n", .str "packages/ui"])]
      [("plan_enforcement", .bool true)] []) =
    [("stack", .dict [("language", .str "typescript"), ("monorepo", .bool true)]),
     ("structure", .dict [("shared_packages",
        .list [.str "packages/i18n", .str "packages/ui"])]),
     ("disciplines", .dict [("plan_enforcement", .bool true)])] := by rfl

/-! ### Occurrence counting for the front-matter marker -/

theorem findSub_drop_leads (pat : List Char) :
    ∀ (l : List Char) (n : Nat), findSub pat l = some n → leadsWith pat (l.drop n) = true := by
  intro l
  induction l with
  | nil =>
      intro n h
      by_cases hp : pat = []
      · subst hp; simp [leadsWith]
      · simp [findSub, hp] at h
  | cons c rest ih =>
      intro n h
      rw [findSub] at h
      by_cases hl : leadsWith pat (c :: rest) = true
      · simp [hl] at h; subst h; simpa using hl
      · simp [hl] at h
        obtain ⟨m, hm, hn⟩ := h
        subst hn
        simpa using ih m hm

theorem countOcc_pos (pat : List Char) (hp : pat ≠ []) :
    ∀ (l : List Char) (n : Nat), leadsWith pat (l.drop n) = true → 1 ≤ countOcc pat l := by
  intro l
  induction l with
  | nil =>
      intro n h
      obtain ⟨q, qs, rfl⟩ : ∃ q qs, pat = q :: qs := by
        cases pat with
        | nil => exact absurd rfl hp
        | cons q qs => exact ⟨q, qs, rfl⟩
      simp [leadsWith] at h
  | cons c rest ih =>
      intro n h
      cases n with
      | zero =>
          simp only [List.drop_zero] at h
          rw [countOcc, if_pos h]
          omega
      | succ m =>
          have : 1 ≤ countOcc pat rest := ih m (by simpa using h)
          rw [countOcc]
          omega

theorem countOcc_two (pat : List Char) (hp : pat ≠ []) (l : List Char) (n : Nat)
    (h0 : leadsWith pat l = true) (h1 : leadsWith pat (l.drop (n + 1)) = true) :
    2 ≤ countOcc pat l := by
  cases l with
  | nil =>
      obtain ⟨q, qs, rfl⟩ : ∃ q qs, pat = q :: qs := by
        cases pat with
        | nil => exact absurd rfl hp
        | cons q qs => exact ⟨q, qs, rfl⟩
      simp [leadsWith] at h0
  | cons c rest =>
      have : 1 ≤ countOcc pat rest := countOcc_pos pat hp rest n (by simpa using h1)
      rw [countOcc, if_pos h0]
      omega

theorem fmTry_some (rest : List Char) :
    ∀ (i : Nat) (b : List Char), fmTry rest i = some b → ∃ j, fmAt rest j = some b := by
  intro i
  induction i with
  | zero => intro b h; exact ⟨0, h⟩
  | succ m ih =>
      intro b h
      rw [fmTry] at h
      cases hA : fmAt rest (m + 1) with
      | some b0 =>
          rw [hA] at h
          simp at h
          exact ⟨m + 1, by rw [hA, h]⟩
      | none =>
          rw [hA] at h
          exact ih b h

theorem leadsWith_nlMarker (l : List Char) (h : leadsWith nlMarker l = true) :
    ∃ c cs, l = c :: cs ∧ leadsWith dashMarker cs = true := by
  cases l with
  | nil => simp [nlMarker, leadsWith] at h
  | cons c cs =>
      refine ⟨c, cs, rfl, ?_⟩
      rw [nlMarker, leadsWith] at h
      exact (Bool.and_eq_true _ _ |>.mp h).2

theorem extractFM_second_occurrence (text b : List Char) (h : extractFM text = some b) :
    leadsWith dashMarker text = true ∧
      ∃ m, leadsWith dashMarker (text.drop (m + 1)) = true := by
  rw [extractFM] at h
  by_cases hl : leadsWith dashMarker text = true
  case neg =>
      rw [if_neg (by simpa using hl)] at h
      exact absurd h (by simp)
  case pos =>
  refine ⟨hl, ?_⟩
  rw [if_pos hl] at h
  obtain ⟨j, hj⟩ := fmTry_some _ _ _ h
  rw [fmAt] at hj
  by_cases hc : (text.drop 3).get? j = some '\n'
  case neg =>
      rw [if_neg hc] at hj
      exact absurd hj (by simp)
  case pos =>
  rw [if_pos hc] at hj
  cases hf : findSub nlMarker ((text.drop 3).drop (j + 1)) with
  | none => rw [hf] at hj; exact absurd hj (by simp)
  | some idx =>
      have hlw := findSub_drop_leads nlMarker _ _ hf
      have e2 : ((text.drop 3).drop (j + 1)).drop idx = text.drop (idx + (j + 1) + 3) := by
        rw [List.drop_drop, List.drop_drop]
        congr 1
        omega
      rw [e2] at hlw
      obtain ⟨c, cs, hcs, hdash⟩ := leadsWith_nlMarker _ hlw
      refine ⟨idx + (j + 1) + 3, ?_⟩
      have hstep : text.drop (idx + (j + 1) + 3 + 1) = cs := by
        rw [← List.tail_drop, hcs]
        rfl
      rw [hstep]
      exact hdash

/-- C2: the document parser is a total function into mappings (this
embedding of it has no partiality), and whenever the open marker "---"
does not occur at two distinct positions of the text, the front-matter
pattern cannot match, so parse_frontmatter returns the empty mapping. -/
theorem C2_no_marker_empty (text : List Char)
    (h : countOcc dashMarker text < 2) : parse_frontmatter text = [] := by
  cases hE : extractFM text with
  | none => rw [parse_frontmatter, hE]
  | some b =>
      exfalso
      obtain ⟨h0, m, hm⟩ := extractFM_second_occurrence text b hE
      exact absurd (countOcc_two dashMarker (by simp [dashMarker]) text m h0 hm) (by omega)

/-- Witness for C2 at a concrete malformed text. -/
theorem C2_no_marker_empty_witness :
    countOcc dashMarker "stack: x".data < 2 ∧ parse_frontmatter "stack: x".data = [] :=
  ⟨by decide, C2_no_marker_empty "stack: x".data (by decide)⟩

/-! ### C7: blank and comment lines in the line loop -/

/-- C7 counterexample: after a comment line inside a nested block, a
following indented child line IS attached to the block that was open
before the comment — the comment line does not reset the current
parent, so the parse result is p mapped to a dictionary containing k,
not to the empty dictionary the claim would predict. -/
theorem C7_counterexample :
    parse_frontmatter "---\np:\n  # note\n  k: v\n---".data =
      [("p", PyVal.dict [("k", PyVal.str "v")])] := by rfl

/-- C7 amended: a blank line resets both the current parent and the
current list and contributes nothing; a comment-marked line resets only
the current list, keeping the current parent, and contributes nothing. -/
theorem C7_blank_comment (st : PState) (line : List Char) :
    (pyStrip line = [] → processLine st line = ⟨st.result, none, none⟩) ∧
    ((pyStrip line).head? = some '#' →
      processLine st line = ⟨st.result, st.parent, none⟩) := by
  constructor
  · intro h
    rw [processLine, if_pos h]
  · intro h
    have hne : pyStrip line ≠ [] := by
      intro he
      rw [he] at h
      simp at h
    rw [processLine, if_neg hne, if_pos h]

/-- Witness for C7 at a concrete blank line and a concrete comment line. -/
theorem C7_blank_comment_witness :
    processLine ⟨[("p", PyVal.dict [])], some "p", some ("p", "k")⟩ " ".data =
        ⟨[("p", PyVal.dict [])], none, none⟩ ∧
      processLine ⟨[("p", PyVal.dict [])], some "p", some ("p", "k")⟩ "  # c".data =
        ⟨[("p", PyVal.dict [])], some "p", none⟩ :=
  ⟨(C7_blank_comment ⟨[("p", PyVal.dict [])], some "p", some ("p", "k")⟩ " ".data).1 (by rfl),
   (C7_blank_comment ⟨[("p", PyVal.dict [])], some "p", some ("p", "k")⟩ "  # c".data).2 (by rfl)⟩

/-! ### C1 counterexample: coercion-sensitive values do not round-trip -/

set_option maxRecDepth 100000 in
/-- C1 counterexample: the renderer can emit an all-digit string scalar
(for example a shared_api_package name taken from a manifest), and
parsing the rendered document coerces it to an integer: the round trip
does not reproduce the string field. -/
theorem C1_counterexample :
    parse_frontmatter (render_config
        [("monorepo", PyVal.bool true)]
        [("shared_api_package", PyVal.str "123")]
        [("plan_enforcement", PyVal.bool true)] []) =
      [("stack", PyVal.dict [("monorepo", PyVal.bool true)]),
       ("structure", PyVal.dict [("shared_api_package", PyVal.int 123)]),
       ("disciplines", PyVal.dict [("plan_enforcement", PyVal.bool true)])] ∧
    PyVal.int 123 ≠ PyVal.str "123" :=
  ⟨by rfl, fun h => PyVal.noConfusion h⟩


/-! ## Dictionary and table lemmas -/

theorem lookupS_dictSetS (d : SDict) (k : String) (v : String) (c : String) :
    lookupS c (dictSetS d k v) = if k = c then some v else lookupS c d := by
  induction d with
  | nil => simp [dictSetS, lookupS]
  | cons e rest ih =>
      obtain ⟨k0, v0⟩ := e
      rw [dictSetS]
      by_cases h0 : k0 = k
      · rw [if_pos h0, lookupS]
        subst h0
        by_cases hc : k0 = c
        · rw [if_pos hc, if_pos hc]
        · rw [if_neg hc, if_neg hc, lookupS, if_neg hc]
      · rw [if_neg h0, lookupS, ih]
        by_cases hc : k0 = c
        · rw [if_pos hc, lookupS, if_pos hc, if_neg (by rw [← hc]; exact fun he => h0 he.symm)]
        · rw [if_neg hc, lookupS, if_neg hc]

theorem lookupP_dictSetP (d : PDict) (k : String) (v : PyVal) (c : String) :
    lookupP c (dictSetP d k v) = if k = c then some v else lookupP c d := by
  induction d with
  | nil => simp [dictSetP, lookupP]
  | cons e rest ih =>
      obtain ⟨k0, v0⟩ := e
      rw [dictSetP]
      by_cases h0 : k0 = k
      · rw [if_pos h0, lookupP]
        subst h0
        by_cases hc : k0 = c
        · rw [if_pos hc, if_pos hc]
        · rw [if_neg hc, if_neg hc, lookupP, if_neg hc]
      · rw [if_neg h0, lookupP, ih]
        by_cases hc : k0 = c
        · rw [if_pos hc, lookupP, if_pos hc, if_neg (by rw [← hc]; exact fun he => h0 he.symm)]
        · rw [if_neg hc, lookupP, if_neg hc]

theorem lookupP_append (d1 d2 : PDict) (k : String) :
    lookupP k (d1 ++ d2) =
      match lookupP k d1 with
      | some v => some v
      | none => lookupP k d2 := by
  induction d1 with
  | nil => rw [List.nil_append]; rfl
  | cons e rest ih =>
      obtain ⟨k0, v0⟩ := e
      rw [List.cons_append, lookupP, lookupP]
      by_cases h0 : k0 = k
      · rw [if_pos h0, if_pos h0]
      · rw [if_neg h0, if_neg h0, ih]

theorem lookupP_mapStr (d : SDict) (k : String) :
    lookupP k (d.map fun e => (e.1, PyVal.str e.2)) = (lookupS k d).map PyVal.str := by
  induction d with
  | nil => rfl
  | cons e rest ih =>
      obtain ⟨k0, v0⟩ := e
      rw [List.map_cons, lookupP, lookupS]
      by_cases h0 : k0 = k
      · rw [if_pos h0, if_pos h0]; rfl
      · rw [if_neg h0, if_neg h0, ih]

theorem lookupS_tableAssign_self (tbl : SDict) (cat : String) (deps : List String) (r : SDict) :
    lookupS cat (tableAssign tbl cat deps r) =
      match tbl.find? (fun e => deps.contains e.1) with
      | some e => some e.2
      | none => lookupS cat r := by
  rw [tableAssign]
  cases h : tbl.find? (fun e => deps.contains e.1) with
  | none => rfl
  | some e => rw [lookupS_dictSetS, if_pos rfl]

theorem lookupS_tableAssign_ne (tbl : SDict) (cat : String) (deps : List String) (r : SDict)
    (c : String) (h : cat ≠ c) :
    lookupS c (tableAssign tbl cat deps r) = lookupS c r := by
  rw [tableAssign]
  cases hf : tbl.find? (fun e => deps.contains e.1) with
  | none => rfl
  | some e => rw [lookupS_dictSetS, if_neg h]

theorem lookupS_ite_dictSetS_ne (b : Bool) (r : SDict) (k v : String) (c : String)
    (h : k ≠ c) :
    lookupS c (if b then dictSetS r k v else r) = lookupS c r := by
  cases b with
  | false => rfl
  | true => rw [if_pos rfl, lookupS_dictSetS, if_neg h]

/-! ## Characterization of the category scans -/

theorem lookupS_lbyl_from_deps_other (deps : List String) (rs : SDict) (pm : String)
    (c : String) (h1 : c ≠ "frontend") (h2 : c ≠ "backend") (h3 : c ≠ "validation")
    (h4 : c ≠ "styling") (h5 : c ≠ "testing") (h6 : c ≠ "orm") :
    lookupS c (LBYL.detect_from_deps deps rs pm) = none := by
  simp only [LBYL.detect_from_deps]
  rw [lookupS_tableAssign_ne _ _ _ _ _ (fun he => h6 he.symm),
      lookupS_ite_dictSetS_ne _ _ _ _ _ (fun he => h5 he.symm),
      lookupS_tableAssign_ne _ _ _ _ _ (fun he => h5 he.symm),
      lookupS_tableAssign_ne _ _ _ _ _ (fun he => h4 he.symm),
      lookupS_tableAssign_ne _ _ _ _ _ (fun he => h3 he.symm),
      lookupS_tableAssign_ne _ _ _ _ _ (fun he => h2 he.symm),
      lookupS_ite_dictSetS_ne _ _ _ _ _ (fun he => h2 he.symm),
      lookupS_tableAssign_ne _ _ _ _ _ (fun he => h1 he.symm)]
  rfl

theorem lookupS_sd_from_deps_other (deps : List String)
    (c : String) (h1 : c ≠ "frontend") (h2 : c ≠ "backend") (h3 : c ≠ "validation")
    (h4 : c ≠ "styling") (h5 : c ≠ "testing") (h6 : c ≠ "orm") :
    lookupS c (SD.detect_from_deps deps) = none := by
  simp only [SD.detect_from_deps]
  rw [lookupS_tableAssign_ne _ _ _ _ _ (fun he => h6 he.symm),
      lookupS_tableAssign_ne _ _ _ _ _ (fun he => h5 he.symm),
      lookupS_tableAssign_ne _ _ _ _ _ (fun he => h4 he.symm),
      lookupS_tableAssign_ne _ _ _ _ _ (fun he => h3 he.symm),
      lookupS_tableAssign_ne _ _ _ _ _ (fun he => h2 he.symm),
      lookupS_ite_dictSetS_ne _ _ _ _ _ (fun he => h2 he.symm),
      lookupS_tableAssign_ne _ _ _ _ _ (fun he => h1 he.symm)]
  rfl

theorem lookupS_tableAssign_self_none (tbl : SDict) (cat : String) (deps : List String)
    (r : SDict) (h : lookupS cat r = none) :
    lookupS cat (tableAssign tbl cat deps r) =
      (tbl.find? fun e => deps.contains e.1).map Prod.snd := by
  rw [tableAssign]
  cases hf : tbl.find? (fun e => deps.contains e.1) with
  | none => simpa using h
  | some e => rw [lookupS_dictSetS, if_pos rfl]; rfl

/-- The pre-table next rule can never fire: when next is among the
dependencies, the frontend table scan has already filled the frontend
category, because next is itself a frontend-table entry. -/
theorem next_guard_false (deps : List String) :
    (deps.contains "next"
      && !hasKeyS "frontend" (tableAssign frontend_map "frontend" deps [])) = false := by
  cases hn : deps.contains "next" with
  | false => rfl
  | true =>
      have hsome : (frontend_map.find? fun e => deps.contains e.1).isSome = true := by
        rw [List.find?_isSome]
        exact ⟨("next", "next"), by simp [frontend_map], by simpa using hn⟩
      have hk : hasKeyS "frontend" (tableAssign frontend_map "frontend" deps []) = true := by
        rw [hasKeyS, lookupS_tableAssign_self]
        obtain ⟨e, he⟩ := Option.isSome_iff_exists.mp hsome
        rw [he]
        rfl
      rw [hk]
      rfl

theorem lbyl_frontend_char (deps : List String) (rs : SDict) (pm : String) :
    lookupS "frontend" (LBYL.detect_from_deps deps rs pm) =
      (frontend_map.find? fun e => deps.contains e.1).map Prod.snd := by
  simp only [LBYL.detect_from_deps]
  rw [lookupS_tableAssign_ne _ _ _ _ _ (by decide),
      lookupS_ite_dictSetS_ne _ _ _ _ _ (by decide),
      lookupS_tableAssign_ne _ _ _ _ _ (by decide),
      lookupS_tableAssign_ne _ _ _ _ _ (by decide),
      lookupS_tableAssign_ne _ _ _ _ _ (by decide),
      lookupS_tableAssign_ne _ _ _ _ _ (by decide),
      lookupS_ite_dictSetS_ne _ _ _ _ _ (by decide)]
  exact lookupS_tableAssign_self_none _ _ _ _ rfl

theorem sd_frontend_char (deps : List String) :
    lookupS "frontend" (SD.detect_from_deps deps) =
      (frontend_map.find? fun e => deps.contains e.1).map Prod.snd := by
  simp only [SD.detect_from_deps]
  rw [lookupS_tableAssign_ne _ _ _ _ _ (by decide),
      lookupS_tableAssign_ne _ _ _ _ _ (by decide),
      lookupS_tableAssign_ne _ _ _ _ _ (by decide),
      lookupS_tableAssign_ne _ _ _ _ _ (by decide),
      lookupS_tableAssign_ne _ _ _ _ _ (by decide),
      lookupS_ite_dictSetS_ne _ _ _ _ _ (by decide)]
  exact lookupS_tableAssign_self_none _ _ _ _ rfl

theorem lbyl_backend_char (deps : List String) (rs : SDict) (pm : String) :
    lookupS "backend" (LBYL.detect_from_deps deps rs pm) =
      (backend_map.find? fun e => deps.contains e.1).map Prod.snd := by
  simp only [LBYL.detect_from_deps]
  rw [lookupS_tableAssign_ne _ _ _ _ _ (by decide),
      lookupS_ite_dictSetS_ne _ _ _ _ _ (by decide),
      lookupS_tableAssign_ne _ _ _ _ _ (by decide),
      lookupS_tableAssign_ne _ _ _ _ _ (by decide),
      lookupS_tableAssign_ne _ _ _ _ _ (by decide)]
  refine lookupS_tableAssign_self_none _ _ _ _ ?_
  rw [next_guard_false, if_neg Bool.false_ne_true,
      lookupS_tableAssign_ne _ _ _ _ _ (by decide)]
  rfl

theorem sd_backend_char (deps : List String) :
    lookupS "backend" (SD.detect_from_deps deps) =
      (backend_map.find? fun e => deps.contains e.1).map Prod.snd := by
  simp only [SD.detect_from_deps]
  rw [lookupS_tableAssign_ne _ _ _ _ _ (by decide),
      lookupS_tableAssign_ne _ _ _ _ _ (by decide),
      lookupS_tableAssign_ne _ _ _ _ _ (by decide),
      lookupS_tableAssign_ne _ _ _ _ _ (by decide)]
  refine lookupS_tableAssign_self_none _ _ _ _ ?_
  rw [next_guard_false, if_neg Bool.false_ne_true,
      lookupS_tableAssign_ne _ _ _ _ _ (by decide)]
  rfl

theorem lbyl_validation_char (deps : List String) (rs : SDict) (pm : String) :
    lookupS "validation" (LBYL.detect_from_deps deps rs pm) =
      (validation_map.find? fun e => deps.contains e.1).map Prod.snd := by
  simp only [LBYL.detect_from_deps]
  rw [lookupS_tableAssign_ne _ _ _ _ _ (by decide),
      lookupS_ite_dictSetS_ne _ _ _ _ _ (by decide),
      lookupS_tableAssign_ne _ _ _ _ _ (by decide),
      lookupS_tableAssign_ne _ _ _ _ _ (by decide)]
  refine lookupS_tableAssign_self_none _ _ _ _ ?_
  rw [lookupS_tableAssign_ne _ _ _ _ _ (by decide),
      lookupS_ite_dictSetS_ne _ _ _ _ _ (by decide),
      lookupS_tableAssign_ne _ _ _ _ _ (by decide)]
  rfl

theorem lbyl_styling_char (deps : List String) (rs : SDict) (pm : String) :
    lookupS "styling" (LBYL.detect_from_deps deps rs pm) =
      (styling_map.find? fun e => deps.contains e.1).map Prod.snd := by
  simp only [LBYL.detect_from_deps]
  rw [lookupS_tableAssign_ne _ _ _ _ _ (by decide),
      lookupS_ite_dictSetS_ne _ _ _ _ _ (by decide),
      lookupS_tableAssign_ne _ _ _ _ _ (by decide)]
  refine lookupS_tableAssign_self_none _ _ _ _ ?_
  rw [lookupS_tableAssign_ne _ _ _ _ _ (by decide),
      lookupS_tableAssign_ne _ _ _ _ _ (by decide),
      lookupS_ite_dictSetS_ne _ _ _ _ _ (by decide),
      lookupS_tableAssign_ne _ _ _ _ _ (by decide)]
  rfl

theorem lbyl_orm_char (deps : List String) (rs : SDict) (pm : String) :
    lookupS "orm" (LBYL.detect_from_deps deps rs pm) =
      (orm_map.find? fun e => deps.contains e.1).map Prod.snd := by
  simp only [LBYL.detect_from_deps]
  refine lookupS_tableAssign_self_none _ _ _ _ ?_
  rw [lookupS_ite_dictSetS_ne _ _ _ _ _ (by decide),
      lookupS_tableAssign_ne _ _ _ _ _ (by decide),
      lookupS_tableAssign_ne _ _ _ _ _ (by decide),
      lookupS_tableAssign_ne _ _ _ _ _ (by decide),
      lookupS_tableAssign_ne _ _ _ _ _ (by decide),
      lookupS_ite_dictSetS_ne _ _ _ _ _ (by decide),
      lookupS_tableAssign_ne _ _ _ _ _ (by decide)]
  rfl

theorem sd_testing_char (deps : List String) :
    lookupS "testing" (SD.detect_from_deps deps) =
      (testing_map.find? fun e => deps.contains e.1).map Prod.snd := by
  simp only [SD.detect_from_deps]
  rw [lookupS_tableAssign_ne _ _ _ _ _ (by decide)]
  refine lookupS_tableAssign_self_none _ _ _ _ ?_
  rw [lookupS_tableAssign_ne _ _ _ _ _ (by decide),
      lookupS_tableAssign_ne _ _ _ _ _ (by decide),
      lookupS_tableAssign_ne _ _ _ _ _ (by decide),
      lookupS_ite_dictSetS_ne _ _ _ _ _ (by decide),
      lookupS_tableAssign_ne _ _ _ _ _ (by decide)]
  rfl

theorem lbyl_testing_char (deps : List String) (rs : SDict) (pm : String) :
    lookupS "testing" (LBYL.detect_from_deps deps rs pm) =
      match testing_map.find? fun e => deps.contains e.1 with
      | some e => some e.2
      | none =>
          if pm = "bun" && (containsSub "bun test".data ((lookupS "test" rs).getD "").data
              || containsSub "bun run test".data ((lookupS "test" rs).getD "").data) then
            some "bun-test"
          else none := by
  simp only [LBYL.detect_from_deps]
  rw [lookupS_tableAssign_ne _ _ _ _ _ (by decide)]
  have h6 : lookupS "testing" (tableAssign testing_map "testing" deps
      (tableAssign styling_map "styling" deps
        (tableAssign validation_map "validation" deps
          (tableAssign backend_map "backend" deps
            (if deps.contains "next"
                && !hasKeyS "frontend" (tableAssign frontend_map "frontend" deps []) then
              dictSetS (tableAssign frontend_map "frontend" deps []) "backend" "next"
            else tableAssign frontend_map "frontend" deps []))))) =
      (testing_map.find? fun e => deps.contains e.1).map Prod.snd := by
    refine lookupS_tableAssign_self_none _ _ _ _ ?_
    rw [lookupS_tableAssign_ne _ _ _ _ _ (by decide),
        lookupS_tableAssign_ne _ _ _ _ _ (by decide),
        lookupS_tableAssign_ne _ _ _ _ _ (by decide),
        lookupS_ite_dictSetS_ne _ _ _ _ _ (by decide),
        lookupS_tableAssign_ne _ _ _ _ _ (by decide)]
    rfl
  have hkey : hasKeyS "testing" (tableAssign testing_map "testing" deps
      (tableAssign styling_map "styling" deps
        (tableAssign validation_map "validation" deps
          (tableAssign backend_map "backend" deps
            (if deps.contains "next"
                && !hasKeyS "frontend" (tableAssign frontend_map "frontend" deps []) then
              dictSetS (tableAssign frontend_map "frontend" deps []) "backend" "next"
            else tableAssign frontend_map "frontend" deps []))))) =
      (testing_map.find? fun e => deps.contains e.1).isSome := by
    rw [hasKeyS, h6]
    cases testing_map.find? fun e => deps.contains e.1 <;> rfl
  rw [hkey]
  cases hF : testing_map.find? fun e => deps.contains e.1 with
  | some e =>
      simp only [Option.isSome_some, Bool.not_true, Bool.false_and]
      rw [if_neg Bool.false_ne_true, h6, hF]
      rfl
  | none =>
      simp only [Option.isSome_none, Bool.not_false, Bool.true_and]
      by_cases hX : (decide (pm = "bun")
          && (containsSub "bun test".data ((lookupS "test" rs).getD "").data
            || containsSub "bun run test".data ((lookupS "test" rs).getD "").data)) = true
      · rw [if_pos hX, if_pos hX, lookupS_dictSetS, if_pos rfl]
      · rw [if_neg hX, if_neg hX, h6, hF]
        rfl

/-! ### C3, C9, C10: the dependency classifier -/

/-- C3 counterexample: with react and next both present and no
backend-table dependency, frontend is set to react by a different
dependency name, yet backend is NOT set to next — the guard requires
the frontend category to be unset, not merely unset by next itself. -/
theorem C3_counterexample :
    LBYL.detect_from_deps ["react", "next"] [] "" = [("frontend", "react")] ∧
    lookupS "backend" (LBYL.detect_from_deps ["react", "next"] [] "") = none :=
  ⟨rfl, rfl⟩

/-- C3 amended: next implies backend only while the frontend category is
still unset after the frontend table scan; since next is itself a
frontend-table entry, the frontend category is always set when next is
present, so the pre-table rule never fires and the backend category is
exactly the first backend-table match, in both variants. -/
theorem C3_next_backend (deps : List String) (rs : SDict) (pm : String)
    (h : deps.contains "next" = true) :
    lookupS "backend" (LBYL.detect_from_deps deps rs pm) =
        (backend_map.find? fun e => deps.contains e.1).map Prod.snd ∧
      lookupS "backend" (SD.detect_from_deps deps) =
        (backend_map.find? fun e => deps.contains e.1).map Prod.snd ∧
      hasKeyS "frontend" (tableAssign frontend_map "frontend" deps []) = true := by
  refine ⟨lbyl_backend_char deps rs pm, sd_backend_char deps, ?_⟩
  have hg := next_guard_false deps
  rw [h] at hg
  simpa using hg

/-- Witness for C3 at the dependency set of the counterexample. -/
theorem C3_next_backend_witness :
    (["react", "next"] : List String).contains "next" = true ∧
    lookupS "backend" (LBYL.detect_from_deps ["react", "next"] [] "") =
      (backend_map.find? fun e => (["react", "next"] : List String).contains e.1).map Prod.snd :=
  ⟨by rfl, (C3_next_backend ["react", "next"] [] "" (by rfl)).1⟩

/-- C10: the classifier never maps the backend category to next, in
either variant: the pre-table rule is dead code (next fills frontend
first) and next appears in no backend-table entry. -/
theorem C10_backend_never_next (deps : List String) (rs : SDict) (pm : String) :
    lookupS "backend" (LBYL.detect_from_deps deps rs pm) ≠ some "next" ∧
    lookupS "backend" (SD.detect_from_deps deps) ≠ some "next" := by
  have hval : ∀ e : String × String,
      backend_map.find? (fun e => deps.contains e.1) = some e → e.2 ≠ "next" := by
    intro e he
    have hmem : e ∈ backend_map := List.mem_of_find?_eq_some he
    simp only [backend_map, List.mem_cons, List.not_mem_nil, or_false] at hmem
    rcases hmem with rfl | rfl | rfl | rfl | rfl <;> decide
  constructor
  · rw [lbyl_backend_char]
    cases hf : backend_map.find? fun e => deps.contains e.1 with
    | none => simp
    | some e => exact fun hc => hval e hf (by simpa using hc)
  · rw [sd_backend_char]
    cases hf : backend_map.find? fun e => deps.contains e.1 with
    | none => simp
    | some e => exact fun hc => hval e hf (by simpa using hc)

/-- C9 counterexample: the testing category is not always the first
testing-table entry whose name is in the set — with no testing
dependency, a bun package manager and a test script invoking bun test,
the outcome is bun-test although the table matches nothing. -/
theorem C9_counterexample :
    LBYL.detect_from_deps [] [("test", "bun test")] "bun" = [("testing", "bun-test")] ∧
    testing_map.find? (fun e => ([] : List String).contains e.1) = none :=
  ⟨rfl, rfl⟩

/-- C9 amended: the classifier depends on the dependency set only
through membership (lists equal as sets give identical results, in both
variants), and every category outcome is the first table entry whose
name is a member — except testing, which, when the table matches
nothing, the package manager is bun and the test script invokes bun
test, falls back to bun-test. -/
theorem C9_set_semantics (d1 d2 : List String) (rs : SDict) (pm : String)
    (h : ∀ s, d1.contains s = d2.contains s) :
    LBYL.detect_from_deps d1 rs pm = LBYL.detect_from_deps d2 rs pm ∧
    SD.detect_from_deps d1 = SD.detect_from_deps d2 ∧
    lookupS "frontend" (LBYL.detect_from_deps d1 rs pm) =
      (frontend_map.find? fun e => d1.contains e.1).map Prod.snd ∧
    lookupS "backend" (LBYL.detect_from_deps d1 rs pm) =
      (backend_map.find? fun e => d1.contains e.1).map Prod.snd ∧
    lookupS "validation" (LBYL.detect_from_deps d1 rs pm) =
      (validation_map.find? fun e => d1.contains e.1).map Prod.snd ∧
    lookupS "styling" (LBYL.detect_from_deps d1 rs pm) =
      (styling_map.find? fun e => d1.contains e.1).map Prod.snd ∧
    lookupS "orm" (LBYL.detect_from_deps d1 rs pm) =
      (orm_map.find? fun e => d1.contains e.1).map Prod.snd ∧
    lookupS "testing" (LBYL.detect_from_deps d1 rs pm) =
      (match testing_map.find? fun e => d1.contains e.1 with
       | some e => some e.2
       | none =>
           if pm = "bun" && (containsSub "bun test".data ((lookupS "test" rs).getD "").data
               || containsSub "bun run test".data ((lookupS "test" rs).getD "").data) then
             some "bun-test"
           else none) ∧
    lookupS "testing" (SD.detect_from_deps d1) =
      (testing_map.find? fun e => d1.contains e.1).map Prod.snd := by
  refine ⟨?_, ?_, lbyl_frontend_char d1 rs pm, lbyl_backend_char d1 rs pm,
    lbyl_validation_char d1 rs pm, lbyl_styling_char d1 rs pm, lbyl_orm_char d1 rs pm,
    lbyl_testing_char d1 rs pm, sd_testing_char d1⟩
  · simp only [LBYL.detect_from_deps, tableAssign, h]
  · simp only [SD.detect_from_deps, tableAssign, h]

/-- Witness for C9 at two lists holding the same name set in different
orders and multiplicities. -/
theorem C9_set_semantics_witness :
    (∀ s, (["next", "react"] : List String).contains s
      = (["react", "next", "react"] : List String).contains s) ∧
    LBYL.detect_from_deps ["next", "react"] [] ""
      = LBYL.detect_from_deps ["react", "next", "react"] [] "" := by
  have hmem : ∀ s, (["next", "react"] : List String).contains s
      = (["react", "next", "react"] : List String).contains s := by
    intro s
    cases h1 : s == "next" <;> cases h2 : s == "react" <;>
      simp [List.contains_cons, h1, h2] <;> tauto
  exact ⟨hmem, (C9_set_semantics ["next", "react"] ["react", "next", "react"] [] "" hmem).1⟩

/-! ### Lookup in the assembled stack dictionary -/

theorem lookupP_stack_runtime (lang rt pmv : String) (mono : Bool) (fd : SDict) :
    lookupP "runtime"
      ((if lang ≠ "" then [("language", PyVal.str lang)] else []) ++
        (if rt ≠ "" then [("runtime", PyVal.str rt)] else []) ++
        (if pmv ≠ "" then [("package_manager", PyVal.str pmv)] else []) ++
        [("monorepo", PyVal.bool mono)] ++
        fd.map fun e => (e.1, PyVal.str e.2)) =
      if rt ≠ "" then some (PyVal.str rt) else (lookupS "runtime" fd).map PyVal.str := by
  by_cases hl : lang = "" <;> by_cases hr : rt = "" <;> by_cases hp : pmv = "" <;>
    simp [hl, hr, hp, lookupP_append, lookupP, lookupP_mapStr]

theorem lookupP_stack_language (lang rt pmv : String) (mono : Bool) (fd : SDict) :
    lookupP "language"
      ((if lang ≠ "" then [("language", PyVal.str lang)] else []) ++
        (if rt ≠ "" then [("runtime", PyVal.str rt)] else []) ++
        (if pmv ≠ "" then [("package_manager", PyVal.str pmv)] else []) ++
        [("monorepo", PyVal.bool mono)] ++
        fd.map fun e => (e.1, PyVal.str e.2)) =
      if lang ≠ "" then some (PyVal.str lang) else (lookupS "language" fd).map PyVal.str := by
  by_cases hl : lang = "" <;> by_cases hr : rt = "" <;> by_cases hp : pmv = "" <;>
    simp [hl, hr, hp, lookupP_append, lookupP, lookupP_mapStr]

/-! ### C4: the runtime derivation -/

/-- C4 counterexample: with a bun lockfile present and language
typescript, the software-discipline variant derives runtime node, not
bun — its detect_runtime does not consult the package manager. -/
theorem C4_counterexample :
    detect_package_manager fsBunLock "r" = "bun" ∧
    SD.detect_language fsBunLock "r" = "typescript" ∧
    lookupP "runtime" (SD.build_config fsBunLock "r").1 = some (PyVal.str "node") ∧
    PyVal.str "node" ≠ PyVal.str "bun" := by
  refine ⟨rfl, rfl, rfl, fun hc => ?_⟩
  injection hc with h2
  exact absurd h2 (by decide)

/-- C4 amended: in the look-before-you-leap variant the runtime field
follows the claimed rule (bun package manager wins outright, otherwise
typescript or javascript give node, otherwise the field is absent); in
the software-discipline variant the runtime is derived from the
language alone and ignores the package manager. -/
theorem C4_runtime_rule (fs : FS) (root : String) :
    (detect_package_manager fs root = "bun" →
      lookupP "runtime" (LBYL.build_config fs root).stack = some (PyVal.str "bun")) ∧
    (detect_package_manager fs root ≠ "bun" →
      (LBYL.detect_language fs root = "typescript" ∨ LBYL.detect_language fs root = "javascript") →
      lookupP "runtime" (LBYL.build_config fs root).stack = some (PyVal.str "node")) ∧
    (detect_package_manager fs root ≠ "bun" →
      LBYL.detect_language fs root ≠ "typescript" →
      LBYL.detect_language fs root ≠ "javascript" →
      lookupP "runtime" (LBYL.build_config fs root).stack = none) ∧
    ((SD.detect_language fs root = "typescript" ∨ SD.detect_language fs root = "javascript") →
      lookupP "runtime" (SD.build_config fs root).1 = some (PyVal.str "node")) ∧
    (SD.detect_language fs root ≠ "typescript" → SD.detect_language fs root ≠ "javascript" →
      lookupP "runtime" (SD.build_config fs root).1 = none) := by
  refine ⟨?_, ?_, ?_, ?_, ?_⟩
  · intro hpm
    simp only [LBYL.build_config]
    rw [hpm, lookupP_stack_runtime]
    have hrt : LBYL.detect_runtime (LBYL.detect_language fs root) "bun" = "bun" := by
      rw [LBYL.detect_runtime, if_pos rfl]
    rw [hrt, if_pos (show ("bun" : String) ≠ "" by decide)]
  · intro hpm hlang
    simp only [LBYL.build_config]
    rw [lookupP_stack_runtime]
    have hrt : LBYL.detect_runtime (LBYL.detect_language fs root)
        (detect_package_manager fs root) = "node" := by
      rw [LBYL.detect_runtime, if_neg hpm, if_pos (by rcases hlang with h | h <;> simp [h])]
    rw [hrt, if_pos (show ("node" : String) ≠ "" by decide)]
  · intro hpm hl1 hl2
    simp only [LBYL.build_config]
    rw [lookupP_stack_runtime]
    have hrt : LBYL.detect_runtime (LBYL.detect_language fs root)
        (detect_package_manager fs root) = "" := by
      rw [LBYL.detect_runtime, if_neg hpm, if_neg (by simp [hl1, hl2])]
    rw [hrt, if_neg (by simp)]
    rw [lookupS_lbyl_from_deps_other _ _ _ _ (by decide) (by decide) (by decide)
        (by decide) (by decide) (by decide)]
    rfl
  · intro hlang
    simp only [SD.build_config]
    rw [lookupP_stack_runtime]
    have hrt : SD.detect_runtime (SD.detect_language fs root) = "node" := by
      rw [SD.detect_runtime, if_pos (by rcases hlang with h | h <;> simp [h])]
    rw [hrt, if_pos (show ("node" : String) ≠ "" by decide)]
  · intro hl1 hl2
    simp only [SD.build_config]
    rw [lookupP_stack_runtime]
    have hrt : SD.detect_runtime (SD.detect_language fs root) = "" := by
      rw [SD.detect_runtime, if_neg (by simp [hl1, hl2])]
    rw [hrt, if_neg (by simp)]
    rw [lookupS_sd_from_deps_other _ _ (by decide) (by decide) (by decide)
        (by decide) (by decide) (by decide)]
    rfl

/-- Witness for C4 at the bun lockfile filesystem. -/
theorem C4_runtime_rule_witness :
    detect_package_manager fsBunLock "r" = "bun" ∧
    lookupP "runtime" (LBYL.build_config fsBunLock "r").stack = some (PyVal.str "bun") :=
  ⟨by rfl, (C4_runtime_rule fsBunLock "r").1 (by rfl)⟩

/-! ### C5: the language chain and the workspace fallback -/

/-- C5 counterexample: with no root typescript marker and a nested
tsconfig.json under apps, the look-before-you-leap detect_language
returns typescript but the software-discipline detect_language has no
workspace fallback and returns the empty string. -/
theorem C5_counterexample :
    LBYL.detect_language fsNestedTs "r" = "typescript" ∧
    SD.detect_language fsNestedTs "r" = "" ∧
    ("" : String) ≠ "typescript" :=
  ⟨rfl, rfl, by decide⟩

/-- C5 amended: in the look-before-you-leap variant the chain behaves as
claimed — no root marker but a nested tsconfig under an existing
workspace parent gives typescript, and when no check holds there is no
language value and hence no language field in the stack; the
software-discipline variant has no workspace fallback and yields no
language even when a nested tsconfig exists, unless a later chain check
is satisfied. -/
theorem C5_language_chain (fs : FS) (root : String) :
    (file_exists fs (root ++ "/tsconfig.json") = false →
      file_exists fs (root ++ "/tsconfig.base.json") = false →
      (workspaceParents.any fun parent =>
        dir_exists fs (root ++ "/" ++ parent) &&
        (fs.listing (root ++ "/" ++ parent)).any fun entry =>
          file_exists fs (root ++ "/" ++ parent ++ "/" ++ entry ++ "/tsconfig.json")) = true →
      LBYL.detect_language fs root = "typescript") ∧
    (file_exists fs (root ++ "/tsconfig.json") = false →
      file_exists fs (root ++ "/tsconfig.base.json") = false →
      (workspaceParents.any fun parent =>
        dir_exists fs (root ++ "/" ++ parent) &&
        (fs.listing (root ++ "/" ++ parent)).any fun entry =>
          file_exists fs (root ++ "/" ++ parent ++ "/" ++ entry ++ "/tsconfig.json")) = false →
      file_exists fs (root ++ "/package.json") = false →
      file_exists fs (root ++ "/Cargo.toml") = false →
      file_exists fs (root ++ "/pyproject.toml") = false →
      file_exists fs (root ++ "/setup.py") = false →
      file_exists fs (root ++ "/go.mod") = false →
      LBYL.detect_language fs root = "" ∧
        lookupP "language" (LBYL.build_config fs root).stack = none) ∧
    (file_exists fs (root ++ "/tsconfig.json") = false →
      file_exists fs (root ++ "/tsconfig.base.json") = false →
      file_exists fs (root ++ "/package.json") = false →
      file_exists fs (root ++ "/Cargo.toml") = false →
      file_exists fs (root ++ "/pyproject.toml") = false →
      file_exists fs (root ++ "/setup.py") = false →
      file_exists fs (root ++ "/go.mod") = false →
      SD.detect_language fs root = "") := by
  refine ⟨?_, ?_, ?_⟩
  · intro h1 h2 h3
    rw [LBYL.detect_language, if_neg (by simp [h1, h2]), if_pos h3]
  · intro h1 h2 h3 h4 h5 h6 h7 h8
    have hlang : LBYL.detect_language fs root = "" := by
      rw [LBYL.detect_language, if_neg (by simp [h1, h2]), if_neg (by simp [h3]),
          if_neg (by simp [h4]), if_neg (by simp [h5]),
          if_neg (by simp [h6, h7]), if_neg (by simp [h8])]
    refine ⟨hlang, ?_⟩
    simp only [LBYL.build_config]
    rw [hlang, lookupP_stack_language, if_neg (by simp)]
    rw [lookupS_lbyl_from_deps_other _ _ _ _ (by decide) (by decide) (by decide)
        (by decide) (by decide) (by decide)]
    rfl
  · intro h1 h2 h3 h4 h5 h6 h7
    rw [SD.detect_language, if_neg (by simp [h1, h2]), if_neg (by simp [h3]),
        if_neg (by simp [h4]), if_neg (by simp [h5, h6]), if_neg (by simp [h7])]

/-- Witness for C5 at the nested-tsconfig filesystem. -/
theorem C5_language_chain_witness :
    LBYL.detect_language fsNestedTs "r" = "typescript" ∧
    SD.detect_language fsNestedTs "r" = "" :=
  ⟨(C5_language_chain fsNestedTs "r").1 rfl rfl (by rfl),
   (C5_language_chain fsNestedTs "r").2.2 rfl rfl rfl rfl rfl rfl rfl⟩

/-! ### C6: the empty-root-manifest boundary -/

set_option maxRecDepth 100000 in
/-- C6 counterexample: an existing but empty root manifest makes
detect_language fall through to the package.json check, so the stack
holds language javascript and runtime node besides monorepo false —
not only monorepo false. -/
theorem C6_counterexample :
    (LBYL.build_config fsEmptyManifest "r").stack =
      [("language", PyVal.str "javascript"), ("runtime", PyVal.str "node"),
       ("monorepo", PyVal.bool false)] ∧
    ([("language", PyVal.str "javascript"), ("runtime", PyVal.str "node"),
      ("monorepo", PyVal.bool false)] : PDict) ≠ [("monorepo", PyVal.bool false)] ∧
    render_config (LBYL.build_config fsEmptyManifest "r").stack
        (LBYL.build_config fsEmptyManifest "r").structure_
        (LBYL.build_config fsEmptyManifest "r").disciplines
        (LBYL.build_config fsEmptyManifest "r").verification =
      ("---\nstack:\n  language: javascript\n  runtime: node\n  monorepo: false\n"
        ++ "disciplines:\n  api_contracts: false\n  plan_enforcement: true\n---\n\n"
        ++ "# Project Notes\n\nAdd project-specific context here (optional, free-form).\n").data := by
  refine ⟨rfl, fun hc => ?_, rfl⟩
  injection hc with h1 h2
  injection h2

/-- C6 amended: a present but empty root manifest, with no marker files,
lockfiles or workspace directories, yields a stack of language
javascript, runtime node and monorepo false, the two disciplines, and
empty structure and verification; the rendered document therefore holds
a three-line stack block and the disciplines block and nothing else. -/
theorem C6_empty_manifest (fs : FS) (root : String)
    (h1 : file_exists fs (root ++ "/tsconfig.json") = false)
    (h2 : file_exists fs (root ++ "/tsconfig.base.json") = false)
    (h3 : dir_exists fs (root ++ "/" ++ "apps") = false)
    (h4 : dir_exists fs (root ++ "/" ++ "packages") = false)
    (h5 : dir_exists fs (root ++ "/" ++ "services") = false)
    (h6 : dir_exists fs (root ++ "/" ++ "libs") = false)
    (h7 : file_exists fs (root ++ "/package.json") = true)
    (h8 : read_json fs (root ++ "/package.json") = some {})
    (h9 : file_exists fs (root ++ "/pnpm-lock.yaml") = false)
    (h10 : file_exists fs (root ++ "/bun.lockb") = false)
    (h11 : file_exists fs (root ++ "/bun.lock") = false)
    (h12 : file_exists fs (root ++ "/yarn.lock") = false)
    (h13 : file_exists fs (root ++ "/package-lock.json") = false)
    (h14 : file_exists fs (root ++ "/pnpm-workspace.yaml") = false)
    (h15 : file_exists fs (root ++ "/turbo.json") = false)
    (h16 : file_exists fs (root ++ "/lerna.json") = false)
    (h17 : file_exists fs (root ++ "/nx.json") = false) :
    LBYL.build_config fs root =
      ⟨[("language", PyVal.str "javascript"), ("runtime", PyVal.str "node"),
        ("monorepo", PyVal.bool false)],
       [],
       [("api_contracts", PyVal.bool false), ("plan_enforcement", PyVal.bool true)],
       []⟩ := by
  have hlang : LBYL.detect_language fs root = "javascript" := by
    rw [LBYL.detect_language, if_neg (by simp [h1, h2]),
        if_neg (by simp [workspaceParents, h3, h4, h5, h6]), if_pos h7]
  have hpm : detect_package_manager fs root = "" := by
    rw [detect_package_manager, if_neg (by simp [h9]), if_neg (by simp [h10, h11]),
        if_neg (by simp [h12]), if_neg (by simp [h13])]
  have hmono : detect_monorepo fs root = false := by
    rw [detect_monorepo, if_neg (by simp [h14]), if_neg (by simp [h15]),
        if_neg (by simp [h16]), if_neg (by simp [h17]), h8]
    rfl
  have hdeps : collect_all_deps fs root = [] := by
    rw [collect_all_deps, h8]
    simp [workspaceParents, h3, h4, h5, h6, Manifest.depNames]
  simp only [LBYL.build_config, hlang, hpm, hmono, hdeps, h8,
    LBYL.detect_structure, LBYL.detect_verification_commands]
  rfl

/-- Witness for C6 at the concrete empty-manifest filesystem. -/
theorem C6_empty_manifest_witness :
    LBYL.build_config fsEmptyManifest "r" =
      ⟨[("language", PyVal.str "javascript"), ("runtime", PyVal.str "node"),
        ("monorepo", PyVal.bool false)],
       [],
       [("api_contracts", PyVal.bool false), ("plan_enforcement", PyVal.bool true)],
       []⟩ :=
  C6_empty_manifest fsEmptyManifest "r" rfl rfl rfl rfl rfl rfl rfl rfl rfl rfl rfl rfl
    rfl rfl rfl rfl rfl

/-! ### C8: the verification extractor -/

theorem verif_fold_lookup (scripts : SDict) :
    ∀ (tbl : SDict) (acc : SDict) (cat : String),
      lookupS cat (tbl.foldl (LBYL.verifStep scripts) acc) =
        match lookupS cat acc with
        | some v => some v
        | none => (tbl.find? fun e => (e.2 == cat) && hasKeyS e.1 scripts).map Prod.fst := by
  intro tbl
  induction tbl with
  | nil =>
      intro acc cat
      rw [List.foldl_nil]
      cases lookupS cat acc <;> rfl
  | cons e rest ih =>
      intro acc cat
      obtain ⟨sn, ct⟩ := e
      rw [List.foldl_cons, ih]
      by_cases hs : hasKeyS sn scripts = true
      · by_cases hc : hasKeyS ct acc = true
        · have hstep : LBYL.verifStep scripts acc (sn, ct) = acc := by
            rw [LBYL.verifStep, hs, hc]
            rfl
          rw [hstep]
          by_cases hcat : ct = cat
          · subst hcat
            obtain ⟨v, hv⟩ := Option.isSome_iff_exists.mp hc
            rw [hv]
          · rw [List.find?_cons_of_neg _ (by simp [hcat])]
        · have hstep : LBYL.verifStep scripts acc (sn, ct) = dictSetS acc ct sn := by
            rw [LBYL.verifStep, hs]
            rw [(by rw [Bool.not_eq_true] at hc; rw [hc] : hasKeyS ct acc = false)]
            rfl
          rw [hstep]
          have hnone : lookupS ct acc = none := by
            rcases ho : lookupS ct acc with _ | v
            · rfl
            · exact absurd (by rw [hasKeyS, ho]; rfl) hc
          by_cases hcat : ct = cat
          · subst hcat
            rw [lookupS_dictSetS, if_pos rfl, hnone,
                List.find?_cons_of_pos _ (by simp [hs])]
            rfl
          · rw [lookupS_dictSetS, if_neg hcat,
                List.find?_cons_of_neg _ (by simp [hcat])]
      · have hstep : LBYL.verifStep scripts acc (sn, ct) = acc := by
          rw [LBYL.verifStep]
          rw [(by rw [Bool.not_eq_true] at hs; rw [hs] : hasKeyS sn scripts = false)]
          rfl
        rw [hstep, List.find?_cons_of_neg _ (by simp [hs])]

/-- C8: for every scripts mapping and category, the extracted command is
the first table entry of that category whose script name is present
(once a category is filled no later entry overwrites it), and an absent
manifest or an absent scripts mapping yields the empty result. -/
theorem C8_verification_extractor :
    (∀ (scripts : SDict) (cat : String),
      lookupS cat (LBYL.verifFromScripts scripts) =
        (LBYL.script_map.find? fun e => (e.2 == cat) && hasKeyS e.1 scripts).map Prod.fst) ∧
    (∀ (fs : FS) (root : String), read_json fs (root ++ "/package.json") = none →
      LBYL.detect_verification_commands fs root = []) ∧
    (∀ (fs : FS) (root : String) (pkg : Manifest),
      read_json fs (root ++ "/package.json") = some pkg → pkg.scripts = none →
      LBYL.detect_verification_commands fs root = []) := by
  refine ⟨?_, ?_, ?_⟩
  · intro scripts cat
    rw [LBYL.verifFromScripts, verif_fold_lookup]
    rfl
  · intro fs root h
    rw [LBYL.detect_verification_commands, h]
  · intro fs root pkg h hs
    simp only [LBYL.detect_verification_commands, h]
    by_cases hf : pkg.isFalsy = true
    · rw [if_pos hf]
    · rw [if_neg hf, hs]
      rfl

/-- Witness for C8 at an absent manifest and at a manifest without
scripts. -/
theorem C8_verification_extractor_witness :
    LBYL.detect_verification_commands fsBunLock "r" = [] ∧
    LBYL.detect_verification_commands fsEmptyManifest "r" = [] :=
  ⟨C8_verification_extractor.2.1 fsBunLock "r" rfl,
   C8_verification_extractor.2.2 fsEmptyManifest "r" {} rfl rfl⟩


/-! ## C1 machinery: character and strip utilities -/

theorem word_ne (c : Char) (h : isWordChar c = true) (d : Char)
    (hd : isWordChar d = false) : c ≠ d := by
  intro he
  rw [he, hd] at h
  cases h

theorem word_not_space (c : Char) (h : isWordChar c = true) : isPySpace c = false := by
  by_cases hs : isPySpace c = true
  · exfalso
    simp only [isPySpace, Bool.or_eq_true, decide_eq_true_eq] at hs
    rcases hs with ((((rfl | rfl) | rfl) | rfl) | rfl) | rfl <;> exact absurd h (by decide)
  · simpa using hs

theorem dropWhile_cons_neg (p : Char → Bool) (c : Char) (l : List Char)
    (h : p c = false) : (c :: l).dropWhile p = c :: l := by
  rw [List.dropWhile_cons, h]
  rfl

theorem takeWhile_cons_neg (p : Char → Bool) (c : Char) (l : List Char)
    (h : p c = false) : (c :: l).takeWhile p = [] := by
  rw [List.takeWhile_cons, h]
  rfl

theorem pyStrip_cons_ws (c : Char) (l : List Char) (h : isPySpace c = true) :
    pyStrip (c :: l) = pyStrip l := by
  rw [pyStrip, pyStrip, List.dropWhile_cons, h]
  rfl

theorem pyStrip_no_edge (l : List Char)
    (h1 : ∀ c, l.head? = some c → isPySpace c = false)
    (h2 : ∀ c, l.getLast? = some c → isPySpace c = false) :
    pyStrip l = l := by
  cases l with
  | nil => rfl
  | cons c t =>
      have hc := h1 c rfl
      rw [pyStrip, dropWhile_cons_neg _ _ _ hc]
      rcases hlast : (c :: t).getLast? with _ | d
      · simp at hlast
      · have hd := h2 d hlast
        have hrev : (c :: t).reverse.head? = some d := by
          rw [List.head?_reverse, hlast]
        rcases hr : (c :: t).reverse with _ | ⟨d0, r⟩
        · simp at hr
        · rw [hr] at hrev
          have hdd : d0 = d := by simpa using hrev
          subst hdd
          rw [dropWhile_cons_neg _ _ _ hd, ← hr, List.reverse_reverse]

theorem takeWhile_app (p : Char → Bool) (A : List Char) (b : Char) (B : List Char)
    (hA : ∀ c ∈ A, p c = true) (hb : p b = false) :
    (A ++ b :: B).takeWhile p = A := by
  induction A with
  | nil => simpa using takeWhile_cons_neg p b B hb
  | cons a t ih =>
      rw [List.cons_append, List.takeWhile_cons, hA a (by simp), if_pos rfl,
        ih fun c hc => hA c (by simp [hc])]

theorem dropWhile_app_words (A : List Char) (b : Char) (B : List Char)
    (hA : ∀ c ∈ A, isWordChar c = true) :
    (isPySpace b = false) → (A ++ b :: B).dropWhile isPySpace = A ++ b :: B := by
  intro hb
  cases A with
  | nil => simpa using dropWhile_cons_neg isPySpace b B hb
  | cons a t =>
      exact dropWhile_cons_neg _ _ _ (word_not_space a (hA a (by simp)))

theorem dropWhile_eq_self_of_strip (v : List Char) (h : pyStrip v = v) :
    v.dropWhile isPySpace = v := by
  have hsub : List.Sublist (v.dropWhile isPySpace) v := List.dropWhile_sublist _
  refine hsub.eq_of_length ?_
  have h1 : (v.dropWhile isPySpace).length ≤ v.length := hsub.length_le
  have h2 : (pyStrip v).length ≤ (v.dropWhile isPySpace).length := by
    rw [pyStrip, List.length_reverse]
    calc ((v.dropWhile isPySpace).reverse.dropWhile isPySpace).length
        ≤ (v.dropWhile isPySpace).reverse.length := (List.dropWhile_sublist _).length_le
      _ = (v.dropWhile isPySpace).length := List.length_reverse _
  rw [h] at h2
  omega

theorem reverse_dropWhile_eq_of_strip (v : List Char) (h : pyStrip v = v) :
    v.reverse.dropWhile isPySpace = v.reverse := by
  have hd := dropWhile_eq_self_of_strip v h
  have : pyStrip v = (v.reverse.dropWhile isPySpace).reverse := by
    rw [pyStrip, hd]
  rw [h] at this
  calc v.reverse.dropWhile isPySpace
      = ((v.reverse.dropWhile isPySpace).reverse).reverse := (List.reverse_reverse _).symm
    _ = v.reverse := by rw [← this]

theorem pyStrip_strip_inv (v : List Char) (h : pyStrip v = v) :
    pyStrip (' ' :: v) = v := by
  rw [pyStrip_cons_ws _ _ (by decide), h]

theorem getLast_not_space_of_strip (v : List Char) (h : pyStrip v = v) :
    ∀ c, v.getLast? = some c → isPySpace c = false := by
  intro c hc
  have hr : v.reverse.head? = some c := by rw [List.head?_reverse, hc]
  rcases hrev : v.reverse with _ | ⟨d, r⟩
  · rw [hrev] at hr; simp at hr
  · rw [hrev] at hr
    have hdc : d = c := by simpa using hr
    subst hdc
    have := reverse_dropWhile_eq_of_strip v h
    rw [hrev] at this
    by_cases hs : isPySpace d = true
    · rw [List.dropWhile_cons, hs] at this
      have hlen := congrArg List.length this
      have : (r.dropWhile isPySpace).length ≤ r.length := (List.dropWhile_sublist _).length_le
      simp at hlen
      omega
    · simpa using hs

/-! ## C1 machinery: what safe values guarantee -/

theorem safeStr_spec (s : String) (h : safeStr s = true) :
    s.data ≠ [] ∧ (∀ c ∈ s.data, c ≠ '\n') ∧ pyStrip s.data = s.data ∧
      _coerce s.data = PyVal.str s := by
  rw [safeStr] at h
  simp only [Bool.and_eq_true] at h
  obtain ⟨⟨⟨hne, hnl⟩, hstrip⟩, hco⟩ := h
  refine ⟨by simpa using hne, ?_, ?_, ?_⟩
  · intro c hc
    have := List.all_eq_true.mp hnl c hc
    simpa using this
  · exact eq_of_beq hstrip
  · rcases hcv : _coerce s.data with t | b | n | l | d <;> rw [hcv] at hco
    · rw [eq_of_beq hco]
    all_goals cases hco

theorem scalar_goodVal (v : PyVal) (h : scalarOk v = true) :
    yaml_val v ≠ [] ∧ (∀ c ∈ yaml_val v, c ≠ '\n') ∧ pyStrip (yaml_val v) = yaml_val v ∧
      _coerce (yaml_val v) = v := by
  cases v with
  | str s =>
      obtain ⟨h1, h2, h3, h4⟩ := safeStr_spec s (by simpa [scalarOk] using h)
      exact ⟨h1, h2, h3, h4⟩
  | bool b =>
      cases b
      · exact ⟨by decide, by decide, by decide, rfl⟩
      · exact ⟨by decide, by decide, by decide, rfl⟩
  | int n => simp [scalarOk] at h
  | list l => simp [scalarOk] at h
  | dict d => simp [scalarOk] at h

theorem wordKey_spec (k : String) (h : wordKey k = true) :
    k.data ≠ [] ∧ ∀ c ∈ k.data, isWordChar c = true := by
  rw [wordKey] at h
  simp only [Bool.and_eq_true] at h
  exact ⟨by simpa using h.1, fun c hc => List.all_eq_true.mp h.2 c hc⟩

/-! ## C1 machinery: how the matchers see rendered lines -/

theorem listItemMatch_none_of_head (line : List Char) (c : Char)
    (hhead : (line.dropWhile isPySpace).head? = some c) (hc : c ≠ '-') :
    listItemMatch line = none := by
  rw [listItemMatch]
  split
  · rfl
  · revert hhead
    rcases line.dropWhile isPySpace with _ | ⟨c0, rest⟩
    · intro hhead
      cases hhead
    · intro hhead
      have hcc : c0 = c := by simpa using hhead
      subst hcc
      split
      · rename_i heq
        injection heq with h1 h2
        exact absurd h1 hc
      · rfl

theorem topMatch_key_line (k : String) (tail2 : List Char)
    (hk : wordKey k = true) :
    topMatch (k.data ++ ':' :: tail2) = some (k.data, pyStrip tail2) := by
  obtain ⟨hne, hword⟩ := wordKey_spec k hk
  rw [topMatch]
  rw [takeWhile_app isWordChar k.data ':' tail2 hword (by decide)]
  rw [if_neg (by simpa using hne)]
  rw [List.drop_left]
  rw [dropWhile_cons_neg isPySpace ':' tail2 (by decide)]
  rfl

theorem childMatch_key_line (k : String) (tail2 : List Char)
    (hk : wordKey k = true) :
    childMatch (' ' :: ' ' :: (k.data ++ ':' :: tail2)) = some (k.data, pyStrip tail2) := by
  obtain ⟨hne, hword⟩ := wordKey_spec k hk
  have e1 : (' ' :: ' ' :: (k.data ++ ':' :: tail2)).takeWhile isPySpace ≠ [] := by
    rw [List.takeWhile_cons, if_pos (by decide)]
    simp
  have e2 : (' ' :: ' ' :: (k.data ++ ':' :: tail2)).dropWhile isPySpace
      = k.data ++ ':' :: tail2 := by
    rw [List.dropWhile_cons, if_pos (by decide), List.dropWhile_cons, if_pos (by decide)]
    exact dropWhile_app_words k.data ':' tail2 hword (by decide)
  rw [childMatch, if_neg e1]
  simp only [e2]
  rw [takeWhile_app isWordChar k.data ':' tail2 hword (by decide)]
  rw [if_neg (by simpa using hne)]
  rw [List.drop_left]
  rw [dropWhile_cons_neg isPySpace ':' tail2 (by decide)]
  rfl

theorem pyStrip_header (B : String) (hB : wordKey B = true) :
    pyStrip (headerLine B) = headerLine B := by
  obtain ⟨hne, hword⟩ := wordKey_spec B hB
  rcases hBd : B.data with _ | ⟨bc, bt⟩
  · exact absurd hBd hne
  · rw [headerLine, hBd]
    refine pyStrip_no_edge _ ?_ ?_
    · intro c hc
      have : bc = c := by simpa using hc
      subst this
      exact word_not_space bc (hword bc (by rw [hBd]; simp))
    · intro c hc
      rw [List.getLast?_concat] at hc
      have : ':' = c := by simpa using hc
      subst this
      decide

/-! ## C1 machinery: the line loop on rendered lines -/

theorem getLast_app2 (a b : Char) (w : List Char) (hw : w ≠ []) :
    ∀ c, (a :: b :: w).getLast? = some c → w.getLast? = some c := by
  intro c hc
  have hsh : (a :: b :: w) = [a, b] ++ w := rfl
  rw [hsh, List.getLast?_append] at hc
  obtain ⟨d, hd⟩ := Option.isSome_iff_exists.mp (List.getLast?_isSome.mpr hw)
  rw [hd] at hc
  rw [hd]
  simpa using hc

theorem getLast_key_app (kd : List Char) (w : List Char) (hw : w ≠ []) :
    ∀ c, (kd ++ ':' :: ' ' :: w).getLast? = some c → w.getLast? = some c := by
  intro c hc
  have hsh : kd ++ ':' :: ' ' :: w = (kd ++ [':', ' ']) ++ w := by
    simp
  rw [hsh, List.getLast?_append] at hc
  obtain ⟨d, hd⟩ := Option.isSome_iff_exists.mp (List.getLast?_isSome.mpr hw)
  rw [hd] at hc
  rw [hd]
  simpa using hc

theorem processLine_header (st : PState) (B : String) (hB : wordKey B = true) :
    processLine st (headerLine B) =
      ⟨dictSetP st.result B (PyVal.dict []), some B, none⟩ := by
  obtain ⟨hne, hword⟩ := wordKey_spec B hB
  rcases hBd : B.data with _ | ⟨bc, bt⟩
  · exact absurd hBd hne
  have hbw : isWordChar bc = true := hword bc (by rw [hBd]; simp)
  have hsh : headerLine B = bc :: (bt ++ [':']) := by
    rw [headerLine, hBd, List.cons_append]
  have hstrip : pyStrip (headerLine B) = headerLine B := pyStrip_header B hB
  have hdw : (headerLine B).dropWhile isPySpace = headerLine B := by
    rw [hsh]
    exact dropWhile_cons_neg _ _ _ (word_not_space bc hbw)
  have hlim : listItemMatch (headerLine B) = none := by
    refine listItemMatch_none_of_head _ bc ?_ (word_ne bc hbw '-' (by decide))
    rw [hdw, hsh]
    rfl
  have hlw : leadsWith "  ".data (headerLine B) = false := by
    show leadsWith (' ' :: ' ' :: []) (headerLine B) = false
    rw [hsh, leadsWith,
        decide_eq_false (fun hsp => word_ne bc hbw ' ' (by decide) hsp.symm)]
    rfl
  have htop : topMatch (headerLine B) = some (B.data, []) := by
    have := topMatch_key_line B [] hB
    rw [headerLine]
    simpa using this
  rw [processLine]
  rw [if_neg (by rw [hstrip, hsh]; simp)]
  rw [if_neg (by
    rw [hstrip, hsh]
    intro hcon
    exact word_ne bc hbw '#' (by decide) (by simpa using hcon))]
  rw [hlim, hlw]
  show (match (none : Option (List Char)), st.clist with
    | some item, some pk =>
        (⟨appendItem st.result pk.1 pk.2 (_coerce item), st.parent, st.clist⟩ : PState)
    | _, _ =>
        match (if false = true then st.parent else none) with
        | some p =>
            match childMatch (headerLine B) with
            | some (key, val) =>
                if val ≠ [] then
                  ⟨setChild st.result p (String.mk key) (_coerce val), st.parent, none⟩
                else
                  ⟨setChild st.result p (String.mk key) (PyVal.list []),
                    st.parent, some (p, String.mk key)⟩
            | none => ⟨st.result, st.parent, none⟩
        | none =>
            match topMatch (headerLine B) with
            | some (key, val) =>
                if val ≠ [] then
                  ⟨dictSetP st.result (String.mk key) (_coerce val), none, none⟩
                else
                  ⟨dictSetP st.result (String.mk key) (PyVal.dict []),
                    some (String.mk key), none⟩
            | none => ⟨st.result, st.parent, none⟩) =
    ⟨dictSetP st.result B (PyVal.dict []), some B, none⟩
  cases st.clist with
  | none =>
      rw [htop]
      simp only [if_neg Bool.false_ne_true]
      rw [if_neg (by simp)]
  | some pk =>
      rw [htop]
      simp only [if_neg Bool.false_ne_true]
      rw [if_neg (by simp)]

theorem processLine_scalar_child (res : PDict) (p : String) (cl : Option (String × String))
    (k : String) (v : PyVal) (hk : wordKey k = true) (hv : scalarOk v = true) :
    processLine ⟨res, some p, cl⟩ (scalarLine k v) =
      ⟨setChild res p k v, some p, none⟩ := by
  obtain ⟨hkne, hkword⟩ := wordKey_spec k hk
  obtain ⟨hvne, hvnl, hvstrip, hvco⟩ := scalar_goodVal v hv
  rcases hkd : k.data with _ | ⟨kc, kt⟩
  · exact absurd hkd hkne
  have hkw : isWordChar kc = true := hkword kc (by rw [hkd]; simp)
  have hcore : k.data ++ ':' :: ' ' :: yaml_val v = kc :: (kt ++ ':' :: ' ' :: yaml_val v) := by
    rw [hkd, List.cons_append]
  have hstrip : pyStrip (scalarLine k v) = k.data ++ ':' :: ' ' :: yaml_val v := by
    rw [scalarLine, pyStrip_cons_ws _ _ (by decide), pyStrip_cons_ws _ _ (by decide)]
    refine pyStrip_no_edge _ ?_ ?_
    · intro c hc
      rw [hcore] at hc
      have : kc = c := by simpa using hc
      subst this
      exact word_not_space kc hkw
    · intro c hc
      exact getLast_not_space_of_strip _ hvstrip c (getLast_key_app k.data _ hvne c hc)
  have hdw : (scalarLine k v).dropWhile isPySpace = k.data ++ ':' :: ' ' :: yaml_val v := by
    rw [scalarLine, List.dropWhile_cons, if_pos (by decide),
        List.dropWhile_cons, if_pos (by decide), hcore]
    exact dropWhile_cons_neg _ _ _ (word_not_space kc hkw)
  have hlim : listItemMatch (scalarLine k v) = none := by
    refine listItemMatch_none_of_head _ kc ?_ (word_ne kc hkw '-' (by decide))
    rw [hdw, hcore]
    rfl
  have hchild2 : childMatch (scalarLine k v) = some (k.data, yaml_val v) := by
    rw [scalarLine, childMatch_key_line k (' ' :: yaml_val v) hk,
        pyStrip_strip_inv _ hvstrip]
  rw [processLine]
  rw [if_neg (by rw [hstrip, hcore]; simp)]
  rw [if_neg (by
    rw [hstrip, hcore]
    intro hcon
    exact word_ne kc hkw '#' (by decide) (by simpa using hcon))]
  rw [hlim]
  have hlead : leadsWith "  ".data (scalarLine k v) = true := rfl
  have hmk : (⟨k.data⟩ : String) = k := rfl
  cases cl <;> simp [hchild2, hlead, hvne, hvco, hmk]

theorem processLine_listkey_child (res : PDict) (p : String) (cl : Option (String × String))
    (k : String) (hk : wordKey k = true) :
    processLine ⟨res, some p, cl⟩ (listKeyLine k) =
      ⟨setChild res p k (PyVal.list []), some p, some (p, k)⟩ := by
  obtain ⟨hkne, hkword⟩ := wordKey_spec k hk
  rcases hkd : k.data with _ | ⟨kc, kt⟩
  · exact absurd hkd hkne
  have hkw : isWordChar kc = true := hkword kc (by rw [hkd]; simp)
  have hcore : k.data ++ [':'] = kc :: (kt ++ [':']) := by
    rw [hkd, List.cons_append]
  have hstrip : pyStrip (listKeyLine k) = k.data ++ [':'] := by
    rw [listKeyLine, pyStrip_cons_ws _ _ (by decide), pyStrip_cons_ws _ _ (by decide)]
    refine pyStrip_no_edge _ ?_ ?_
    · intro c hc
      rw [hcore] at hc
      have : kc = c := by simpa using hc
      subst this
      exact word_not_space kc hkw
    · intro c hc
      rw [List.getLast?_concat] at hc
      have : ':' = c := by simpa using hc
      subst this
      decide
  have hdw : (listKeyLine k).dropWhile isPySpace = k.data ++ [':'] := by
    rw [listKeyLine, List.dropWhile_cons, if_pos (by decide),
        List.dropWhile_cons, if_pos (by decide), hcore]
    exact dropWhile_cons_neg _ _ _ (word_not_space kc hkw)
  have hlim : listItemMatch (listKeyLine k) = none := by
    refine listItemMatch_none_of_head _ kc ?_ (word_ne kc hkw '-' (by decide))
    rw [hdw, hcore]
    rfl
  have hchild2 : childMatch (listKeyLine k) = some (k.data, []) := by
    have := childMatch_key_line k [] hk
    rw [listKeyLine]
    simpa using this
  rw [processLine]
  rw [if_neg (by rw [hstrip, hcore]; simp)]
  rw [if_neg (by
    rw [hstrip, hcore]
    intro hcon
    exact word_ne kc hkw '#' (by decide) (by simpa using hcon))]
  rw [hlim]
  have hlead : leadsWith "  ".data (listKeyLine k) = true := rfl
  have hmk : (⟨k.data⟩ : String) = k := rfl
  cases cl <;> simp [hchild2, hlead, hmk]

theorem processLine_item (res : PDict) (par : Option String) (p k : String) (s : String)
    (hs : safeStr s = true) :
    processLine ⟨res, par, some (p, k)⟩ (itemLine (PyVal.str s)) =
      ⟨appendItem res p k (PyVal.str s), par, some (p, k)⟩ := by
  obtain ⟨hne, hnl, hstrip, hco⟩ := safeStr_spec s hs
  rcases hsd : s.data with _ | ⟨sc, st0⟩
  · exact absurd hsd hne
  have hdws : s.data.dropWhile isPySpace = s.data := dropWhile_eq_self_of_strip _ hstrip
  have hscw : isPySpace sc = false := by
    have := hdws
    rw [hsd] at this
    by_cases hsp : isPySpace sc = true
    · rw [List.dropWhile_cons, if_pos hsp] at this
      have hlen := congrArg List.length this
      have hle : (st0.dropWhile isPySpace).length ≤ st0.length :=
        (List.dropWhile_sublist _).length_le
      simp at hlen
      omega
    · simpa using hsp
  have hstripline : pyStrip (itemLine (PyVal.str s)) = '-' :: ' ' :: s.data := by
    rw [itemLine, pyStr, pyStrip_cons_ws _ _ (by decide), pyStrip_cons_ws _ _ (by decide),
        pyStrip_cons_ws _ _ (by decide), pyStrip_cons_ws _ _ (by decide)]
    refine pyStrip_no_edge _ ?_ ?_
    · intro c hc
      have : '-' = c := by simpa using hc
      subst this
      decide
    · intro c hc
      exact getLast_not_space_of_strip _ hstrip c (getLast_app2 '-' ' ' s.data hne c hc)
  have hlmatch : listItemMatch (itemLine (PyVal.str s)) = some s.data := by
    rw [itemLine, pyStr, listItemMatch]
    rw [if_neg (by rw [List.takeWhile_cons, if_pos (by decide)]; simp)]
    rw [List.dropWhile_cons, if_pos (by decide), List.dropWhile_cons, if_pos (by decide),
        List.dropWhile_cons, if_pos (by decide), List.dropWhile_cons, if_pos (by decide)]
    rw [dropWhile_cons_neg _ _ _ (by decide : isPySpace '-' = false)]
    rw [hsd]
    show (if isPySpace ' ' = true then
        some (pyStrip ((' ' :: sc :: st0).dropWhile isPySpace)) else none) = some (sc :: st0)
    rw [if_pos (by decide), List.dropWhile_cons, if_pos (by decide)]
    rw [← hsd, hdws, hstrip, hsd]
  rw [processLine]
  rw [if_neg (by rw [hstripline]; simp)]
  rw [if_neg (by rw [hstripline]; intro hcon; simp at hcon)]
  rw [hlmatch]
  show (⟨appendItem res p k (_coerce s.data), par, some (p, k)⟩ : PState) =
    ⟨appendItem res p k (PyVal.str s), par, some (p, k)⟩
  rw [hco]

/-! ## C1 machinery: dictionary updates during a block -/

theorem dictSetP_fresh (d : PDict) (k : String) (v : PyVal)
    (h : ∀ e ∈ d, e.1 ≠ k) : dictSetP d k v = d ++ [(k, v)] := by
  induction d with
  | nil => rfl
  | cons e rest ih =>
      obtain ⟨k0, v0⟩ := e
      rw [dictSetP, if_neg (h (k0, v0) (by simp)), List.cons_append,
        ih fun e he => h e (by simp [he])]

theorem dictModifyP_last (pre : PDict) (B : String) (x : PyVal) (f : PyVal → PyVal)
    (h : ∀ e ∈ pre, e.1 ≠ B) :
    dictModifyP (pre ++ [(B, x)]) B f = pre ++ [(B, f x)] := by
  induction pre with
  | nil => rw [List.nil_append, List.nil_append, dictModifyP, if_pos rfl]
  | cons e rest ih =>
      obtain ⟨k0, v0⟩ := e
      rw [List.cons_append, dictModifyP, if_neg (h (k0, v0) (by simp)),
        List.cons_append, ih fun e he => h e (by simp [he])]

theorem setChild_last (pre : PDict) (B : String) (cur : PDict) (k : String) (v : PyVal)
    (h : ∀ e ∈ pre, e.1 ≠ B) :
    setChild (pre ++ [(B, PyVal.dict cur)]) B k v =
      pre ++ [(B, PyVal.dict (dictSetP cur k v))] := by
  rw [setChild, dictModifyP_last pre B _ _ h]

theorem appendItem_last (pre : PDict) (B : String) (cur : PDict) (k : String)
    (acc : List PyVal) (v : PyVal)
    (hpre : ∀ e ∈ pre, e.1 ≠ B) (hcur : ∀ e ∈ cur, e.1 ≠ k) :
    appendItem (pre ++ [(B, PyVal.dict (cur ++ [(k, PyVal.list acc)]))]) B k v =
      pre ++ [(B, PyVal.dict (cur ++ [(k, PyVal.list (acc ++ [v]))]))] := by
  rw [appendItem, dictModifyP_last pre B _ _ hpre]
  show pre ++ [(B, PyVal.dict (dictModifyP (cur ++ [(k, PyVal.list acc)]) k fun cv =>
    match cv with
    | PyVal.list l => PyVal.list (l ++ [v])
    | cv => cv))] = pre ++ [(B, PyVal.dict (cur ++ [(k, PyVal.list (acc ++ [v]))]))]
  rw [dictModifyP_last cur k _ _ hcur]

/-- Keys that appear before an entry in a dup-free dictionary differ
from the entry key. -/
theorem noDup_head_fresh (cur : PDict) (k : String) (v : PyVal) (rest : PDict)
    (h : noDupKeys (cur ++ (k, v) :: rest) = true) : ∀ e ∈ cur, e.1 ≠ k := by
  induction cur with
  | nil => intro e he; cases he
  | cons e0 t ih =>
      obtain ⟨k0, v0⟩ := e0
      rw [List.cons_append, noDupKeys] at h
      simp only [Bool.and_eq_true] at h
      intro e he
      rcases (by simpa using he : e = (k0, v0) ∨ e ∈ t) with rfl | ht
      · have := List.all_eq_true.mp h.1 (k, v) (by simp)
        simp only [decide_eq_true_eq] at this
        exact fun hc => this hc.symm
      · exact ih h.2 e ht

theorem noDup_shift (cur : PDict) (e0 : String × PyVal) (rest : PDict)
    (h : noDupKeys (cur ++ e0 :: rest) = true) :
    noDupKeys ((cur ++ [e0]) ++ rest) = true := by
  have : (cur ++ [e0]) ++ rest = cur ++ e0 :: rest := by simp
  rw [this]
  exact h

theorem noDup_drop_mid (cur : PDict) (e0 : String × PyVal) (rest : PDict)
    (h : noDupKeys (cur ++ e0 :: rest) = true) :
    noDupKeys (cur ++ rest) = true := by
  induction cur with
  | nil =>
      rw [List.nil_append] at h ⊢
      rw [noDupKeys] at h
      simp only [Bool.and_eq_true] at h
      exact h.2
  | cons e1 t ih =>
      obtain ⟨k1, v1⟩ := e1
      rw [List.cons_append, noDupKeys] at h ⊢
      simp only [Bool.and_eq_true] at h ⊢
      refine ⟨?_, ih h.2⟩
      refine List.all_eq_true.mpr fun e he => ?_
      exact List.all_eq_true.mp h.1 e (by
        rcases List.mem_append.mp he with h1 | h2
        · simp [h1]
        · simp [h2])

/-! ## C1 machinery: running whole blocks through the line loop -/

theorem processLines_append (A B : List (List Char)) (st : PState) :
    processLines (A ++ B) st = processLines B (processLines A st) :=
  List.foldl_append _ _ _ _

theorem run_items (B k : String) :
    ∀ (items : List PyVal), (∀ it ∈ items, ∃ s, it = PyVal.str s ∧ safeStr s = true) →
    ∀ (acc : List PyVal) (pre cur : PDict) (par : Option String),
      (∀ e ∈ pre, e.1 ≠ B) → (∀ e ∈ cur, e.1 ≠ k) →
      processLines (items.map itemLine)
          ⟨pre ++ [(B, PyVal.dict (cur ++ [(k, PyVal.list acc)]))], par, some (B, k)⟩ =
        ⟨pre ++ [(B, PyVal.dict (cur ++ [(k, PyVal.list (acc ++ items))]))], par,
          some (B, k)⟩ := by
  intro items
  induction items with
  | nil =>
      intro _ acc pre cur par hpre hcur
      simp [processLines]
  | cons it rest ih =>
      intro hitems acc pre cur par hpre hcur
      obtain ⟨s, rfl, hsafe⟩ := hitems it (by simp)
      rw [List.map_cons, processLines, List.foldl_cons,
        processLine_item _ _ _ _ _ hsafe,
        appendItem_last pre B cur k acc _ hpre hcur]
      have hrec := ih (fun it2 h2 => hitems it2 (by simp [h2]))
        (acc ++ [PyVal.str s]) pre cur par hpre hcur
      rw [processLines] at hrec
      rw [hrec]
      simp

theorem run_entries (B : String) :
    ∀ (entries : PDict), (∀ e ∈ entries, wordKey e.1 = true ∧ structValOk e.2 = true) →
    ∀ (cur pre : PDict) (cl : Option (String × String)),
      noDupKeys (cur ++ entries) = true →
      (∀ e ∈ pre, e.1 ≠ B) →
      ∃ cl2, processLines (entries.flatMap structEntryLines)
          ⟨pre ++ [(B, PyVal.dict cur)], some B, cl⟩ =
        ⟨pre ++ [(B, PyVal.dict (cur ++ entries))], some B, cl2⟩ := by
  intro entries
  induction entries with
  | nil =>
      intro _ cur pre cl _ _
      exact ⟨cl, by simp [processLines]⟩
  | cons e rest ih =>
      intro hwf cur pre cl hdup hpre
      obtain ⟨k, v⟩ := e
      have hkw : wordKey k = true := (hwf (k, v) (by simp)).1
      have hvok : structValOk v = true := (hwf (k, v) (by simp)).2
      have hfresh : ∀ e2 ∈ cur, e2.1 ≠ k := noDup_head_fresh cur k v rest hdup
      have hwfrest : ∀ e2 ∈ rest, wordKey e2.1 = true ∧ structValOk e2.2 = true :=
        fun e2 h2 => hwf e2 (by simp [h2])
      have hshift : noDupKeys ((cur ++ [(k, v)]) ++ rest) = true := noDup_shift cur (k, v) rest hdup
      rw [List.flatMap_cons, processLines_append]
      cases v with
      | list items =>
          have hsafe : ∀ it ∈ items, ∃ s, it = PyVal.str s ∧ safeStr s = true := by
            intro it hit
            have := List.all_eq_true.mp (by simpa [structValOk] using hvok) it hit
            rcases it with s | b | n | l | d
            · exact ⟨s, rfl, by simpa using this⟩
            all_goals simp at this
          simp only [structEntryLines, processLines]
          rw [List.foldl_cons, processLine_listkey_child _ _ _ _ hkw,
            setChild_last pre B cur k _ hpre, dictSetP_fresh cur k _ hfresh]
          have hitems := run_items B k items hsafe [] pre cur (some B) hpre hfresh
          rw [processLines] at hitems
          rw [hitems]
          have hrec := ih hwfrest (cur ++ [(k, PyVal.list ([] ++ items))]) pre
            (some (B, k)) (by simpa using hshift) hpre
          obtain ⟨cl2, hcl2⟩ := hrec
          rw [processLines] at hcl2
          refine ⟨cl2, ?_⟩
          rw [hcl2]
          simp
      | str s =>
          have hscal : scalarOk (PyVal.str s) = true := hvok
          simp only [structEntryLines, processLines]
          rw [List.foldl_cons, List.foldl_nil,
            processLine_scalar_child _ _ _ _ _ hkw hscal,
            setChild_last pre B cur k _ hpre, dictSetP_fresh cur k _ hfresh]
          have hrec := ih hwfrest (cur ++ [(k, PyVal.str s)]) pre none
            (by simpa using hshift) hpre
          obtain ⟨cl2, hcl2⟩ := hrec
          rw [processLines] at hcl2
          refine ⟨cl2, ?_⟩
          rw [hcl2]
          simp
      | bool b =>
          have hscal : scalarOk (PyVal.bool b) = true := hvok
          simp only [structEntryLines, processLines]
          rw [List.foldl_cons, List.foldl_nil,
            processLine_scalar_child _ _ _ _ _ hkw hscal,
            setChild_last pre B cur k _ hpre, dictSetP_fresh cur k _ hfresh]
          have hrec := ih hwfrest (cur ++ [(k, PyVal.bool b)]) pre none
            (by simpa using hshift) hpre
          obtain ⟨cl2, hcl2⟩ := hrec
          rw [processLines] at hcl2
          refine ⟨cl2, ?_⟩
          rw [hcl2]
          simp
      | int n => simp [structValOk, scalarOk] at hvok
      | dict d => simp [structValOk, scalarOk] at hvok

theorem blockOk_spec (vOk : PyVal → Bool) (entries : PDict)
    (h : blockOk vOk entries = true) :
    (∀ e ∈ entries, wordKey e.1 = true ∧ vOk e.2 = true) ∧ noDupKeys entries = true := by
  rw [blockOk] at h
  simp only [Bool.and_eq_true] at h
  refine ⟨fun e he => ?_, h.2⟩
  have := List.all_eq_true.mp h.1 e he
  simpa using this

theorem run_specs :
    ∀ (specs : List (String × PDict)),
      (∀ b ∈ specs, wordKey b.1 = true ∧ blockOk structValOk b.2 = true) →
      List.Pairwise (fun a b => a.1 ≠ b.1) specs →
      ∀ (pre : PDict) (p0 : Option String) (cl0 : Option (String × String)),
        (∀ b ∈ specs, ∀ e ∈ pre, e.1 ≠ b.1) →
        ∃ p1 cl1, processLines (specLines specs) ⟨pre, p0, cl0⟩ =
          ⟨pre ++ specExpected specs, p1, cl1⟩ := by
  intro specs
  induction specs with
  | nil =>
      intro _ _ pre p0 cl0 _
      exact ⟨p0, cl0, by simp [specLines, specExpected, processLines]⟩
  | cons b rest ih =>
      intro hwf hpw pre p0 cl0 hfresh
      obtain ⟨B, entries⟩ := b
      have hBw : wordKey B = true := (hwf (B, entries) (by simp)).1
      obtain ⟨hewf, hdup⟩ := blockOk_spec structValOk entries (hwf (B, entries) (by simp)).2
      have hwfrest : ∀ b2 ∈ rest, wordKey b2.1 = true ∧ blockOk structValOk b2.2 = true :=
        fun b2 h2 => hwf b2 (by simp [h2])
      obtain ⟨hname, hpwrest⟩ := List.pairwise_cons.mp hpw
      by_cases hemp : entries.isEmpty = true
      · simp only [specLines, specExpected, List.flatMap_cons, if_pos hemp, List.nil_append]
        have := ih hwfrest hpwrest pre p0 cl0 (fun b2 h2 => hfresh b2 (by simp [h2]))
        simpa [specLines, specExpected] using this
      · simp only [specLines, specExpected, List.flatMap_cons, if_neg hemp]
        rw [List.cons_append, processLines, List.foldl_cons, processLine_header _ B hBw]
        have hfreshB : ∀ e ∈ pre, e.1 ≠ B := hfresh (B, entries) (by simp)
        rw [dictSetP_fresh pre B _ hfreshB]
        rw [List.foldl_append]
        obtain ⟨cl2, hcl2⟩ := run_entries B entries hewf [] pre none
          (by simpa using hdup) hfreshB
        rw [processLines] at hcl2
        obtain ⟨p1, cl1, hrec⟩ := ih hwfrest hpwrest (pre ++ [(B, PyVal.dict ([] ++ entries))])
          (some B) cl2 (fun b2 h2 e he => by
            rcases List.mem_append.mp he with h3 | h3
            · exact hfresh b2 (by simp [h2]) e h3
            · have : e = (B, PyVal.dict ([] ++ entries)) := by simpa using h3
              rw [this]
              exact hname b2 h2)
        rw [processLines, specLines] at hrec
        refine ⟨p1, cl1, ?_⟩
        rw [hcl2, hrec]
        simp [specExpected]

/-! ## C1 machinery: extracting the body of a rendered document -/


theorem joinNl_cons (l2 : List Char) (rest : List (List Char)) :
    ∃ t, joinNl (l2 :: rest) = l2 ++ t := by
  cases rest with
  | nil => exact ⟨[], by simp [joinNl]⟩
  | cons r rs => exact ⟨'\n' :: joinNl (r :: rs), rfl⟩

theorem joinNl_append (A B : List (List Char)) (hA : A ≠ []) (hB : B ≠ []) :
    joinNl (A ++ B) = joinNl A ++ '\n' :: joinNl B := by
  induction A with
  | nil => exact absurd rfl hA
  | cons a t ih =>
      cases t with
      | nil =>
          cases B with
          | nil => exact absurd rfl hB
          | cons b bs => simp [joinNl]
      | cons a2 t2 =>
          rw [List.cons_append, List.cons_append]
          rw [show joinNl (a :: a2 :: (t2 ++ B)) = a ++ '\n' :: joinNl (a2 :: (t2 ++ B)) from rfl]
          rw [show (a2 :: t2 ++ B) = a2 :: (t2 ++ B) from rfl] at ih
          rw [ih (by simp), show joinNl (a :: a2 :: t2) = a ++ '\n' :: joinNl (a2 :: t2) from rfl]
          simp

theorem leadsWith_append_self (p t : List Char) : leadsWith p (p ++ t) = true := by
  induction p with
  | nil => rfl
  | cons c cs ih => simp [leadsWith, ih]

theorem findSub_nl_skip (l : List Char) (h : ∀ c ∈ l, c ≠ '\n') :
    ∀ X, findSub nlMarker (l ++ X) = (findSub nlMarker X).map (· + l.length) := by
  induction l with
  | nil =>
      intro X
      rw [List.nil_append, List.length_nil]
      cases findSub nlMarker X <;> simp
  | cons c cs ih =>
      intro X
      have hc : c ≠ '\n' := h c (by simp)
      rw [List.cons_append, findSub, if_neg (by
        rw [nlMarker]
        rw [show leadsWith ('\n' :: dashMarker) (c :: (cs ++ X)) =
              (decide ('\n' = c) && leadsWith dashMarker (cs ++ X)) from rfl]
        rw [decide_eq_false (fun he => hc he.symm)]
        simp)]
      rw [ih (fun c2 h2 => h c2 (by simp [h2])) X]
      cases findSub nlMarker X with
      | none => rfl
      | some n => rfl

theorem findSub_marker (lines : List (List Char)) (hok : ∀ l ∈ lines, lineOkC l) :
    ∀ (tail : List Char), leadsWith dashMarker tail = true →
      findSub nlMarker (joinNl lines ++ '\n' :: tail) = some (joinNl lines).length := by
  induction lines with
  | nil =>
      intro tail htail
      rw [joinNl, List.nil_append, findSub]
      rw [if_pos (by
        rw [nlMarker]
        rw [show leadsWith ('\n' :: dashMarker) ('\n' :: tail) =
              (decide ('\n' = '\n') && leadsWith dashMarker tail) from rfl]
        simp [htail])]
      rfl
  | cons l rest ih =>
      intro tail htail
      obtain ⟨hlne, hlnl, hlhd⟩ := hok l (by simp)
      cases rest with
      | nil =>
          rw [show joinNl [l] = l from rfl, findSub_nl_skip l hlnl ('\n' :: tail)]
          rw [findSub, if_pos (by
            rw [nlMarker]
            rw [show leadsWith ('\n' :: dashMarker) ('\n' :: tail) =
                  (decide ('\n' = '\n') && leadsWith dashMarker tail) from rfl]
            simp [htail])]
          simp
      | cons l2 rest2 =>
          have hkey : findSub nlMarker (joinNl (l2 :: rest2) ++ '\n' :: tail) =
              some (joinNl (l2 :: rest2)).length :=
            ih (fun l3 h3 => hok l3 (by simp [h3])) tail htail
          have hhd : ∃ c2 t2, joinNl (l2 :: rest2) = c2 :: t2 ∧ c2 ≠ '-' := by
            obtain ⟨hl2ne, hl2nl, hl2hd⟩ := hok l2 (by simp)
            obtain ⟨t2, ht2⟩ := joinNl_cons l2 rest2
            rcases l2 with _ | ⟨c2, l2t⟩
            · exact absurd rfl hl2ne
            · exact ⟨c2, l2t ++ t2, by rw [ht2]; rfl, hl2hd c2 rfl⟩
          obtain ⟨c2, t2, hJ, hc2⟩ := hhd
          rw [show joinNl (l :: l2 :: rest2) = l ++ '\n' :: joinNl (l2 :: rest2) from rfl]
          rw [List.append_assoc, List.cons_append]
          rw [findSub_nl_skip l hlnl]
          rw [findSub, if_neg (by
            rw [hJ, List.cons_append, nlMarker]
            rw [show leadsWith ('\n' :: dashMarker) ('\n' :: c2 :: (t2 ++ '\n' :: tail)) =
                  (decide ('\n' = '\n') && leadsWith dashMarker (c2 :: (t2 ++ '\n' :: tail))) from rfl]
            rw [show leadsWith dashMarker (c2 :: (t2 ++ '\n' :: tail)) =
                  (decide ('-' = c2) && leadsWith ['-', '-'] (t2 ++ '\n' :: tail)) from rfl]
            rw [(decide_eq_false (fun he => hc2 he.symm) :
                  (decide (('-' : Char) = c2)) = false)]
            simp)]
          rw [hkey]
          simp only [Option.map_some', List.length_append, List.length_cons]
          congr 1
          omega

theorem splitNl_nlfree (l : List Char) (h : ∀ c ∈ l, c ≠ '\n') : splitNl l = [l] := by
  induction l with
  | nil => rfl
  | cons c cs ih =>
      rw [splitNl, if_neg (h c (by simp)), ih (fun c2 h2 => h c2 (by simp [h2]))]

theorem splitNl_append (l Y : List Char) (h : ∀ c ∈ l, c ≠ '\n') :
    splitNl (l ++ '\n' :: Y) = l :: splitNl Y := by
  induction l with
  | nil => rw [List.nil_append, splitNl, if_pos rfl]
  | cons c cs ih =>
      rw [List.cons_append, splitNl, if_neg (h c (by simp)),
        ih (fun c2 h2 => h c2 (by simp [h2]))]

theorem splitNl_joinNl (lines : List (List Char))
    (h : ∀ l ∈ lines, ∀ c ∈ l, c ≠ '\n') (hne : lines ≠ []) :
    splitNl (joinNl lines) = lines := by
  induction lines with
  | nil => exact absurd rfl hne
  | cons l rest ih =>
      cases rest with
      | nil => exact splitNl_nlfree l (h l (by simp))
      | cons l2 rest2 =>
          rw [show joinNl (l :: l2 :: rest2) = l ++ '\n' :: joinNl (l2 :: rest2) from rfl]
          rw [splitNl_append _ _ (h l (by simp))]
          rw [ih (fun l3 h3 c hc => h l3 (by simp [h3]) c hc) (by simp)]

theorem extract_body (J T : List Char) (c0 : Char)
    (hJ : J.head? = some c0) (hc0 : isPySpace c0 = false)
    (hfind : findSub nlMarker (J ++ '\n' :: T) = some J.length) :
    extractFM (dashMarker ++ '\n' :: (J ++ '\n' :: T)) = some J := by
  obtain ⟨Jt, rfl⟩ : ∃ t, J = c0 :: t := by
    cases J with
    | nil => exact absurd hJ (by simp)
    | cons a t =>
        refine ⟨t, ?_⟩
        simp only [List.head?_cons, Option.some.injEq] at hJ
        rw [hJ]
  simp only [extractFM]
  rw [if_pos (leadsWith_append_self _ _)]
  rw [show (dashMarker ++ '\n' :: (c0 :: Jt ++ '\n' :: T)).drop 3 =
        '\n' :: (c0 :: Jt ++ '\n' :: T) from by
    rw [show (3 : Nat) = dashMarker.length from rfl, List.drop_left]]
  rw [List.cons_append]
  rw [List.takeWhile_cons_of_pos (by decide)]
  rw [List.takeWhile_cons_of_neg (by simp [hc0])]
  have h1 : fmAt ('\n' :: (c0 :: (Jt ++ '\n' :: T))) 1 = none := by
    rw [fmAt, if_neg ?hne]
    case hne =>
      intro hcon
      rw [show ('\n' :: (c0 :: (Jt ++ '\n' :: T))).get? 1 = some c0 from rfl] at hcon
      rw [Option.some.injEq] at hcon
      rw [hcon] at hc0
      exact absurd hc0 (by decide)
  have h0 : fmAt ('\n' :: (c0 :: (Jt ++ '\n' :: T))) 0 = some (c0 :: Jt) := by
    rw [fmAt, if_pos (show ('\n' :: (c0 :: (Jt ++ '\n' :: T))).get? 0 = some '\n' from rfl)]
    have hd : ('\n' :: (c0 :: (Jt ++ '\n' :: T))).drop (0 + 1) = (c0 :: Jt) ++ '\n' :: T := by
      rw [List.cons_append]
      rfl
    rw [hd, hfind, Option.map_some']
    rw [List.take_left]
  rw [show fmTry ('\n' :: (c0 :: (Jt ++ '\n' :: T))) (['\n'].length) =
        (match fmAt ('\n' :: (c0 :: (Jt ++ '\n' :: T))) 1 with
         | some b => some b
         | none => fmTry ('\n' :: (c0 :: (Jt ++ '\n' :: T))) 0) from rfl]
  rw [h1]
  show fmTry ('\n' :: (c0 :: (Jt ++ '\n' :: T))) 0 = some (c0 :: Jt)
  rw [show fmTry ('\n' :: (c0 :: (Jt ++ '\n' :: T))) 0 =
        fmAt ('\n' :: (c0 :: (Jt ++ '\n' :: T))) 0 from rfl]
  exact h0

/-! ## C1 machinery: the rendered lines are admissible -/

theorem yaml_val_nlfree (v : PyVal) (h : scalarOk v = true) :
    ∀ c ∈ yaml_val v, c ≠ '\n' := by
  intro c hc
  cases v with
  | str s =>
      simp only [yaml_val] at hc
      simp only [scalarOk, safeStr, Bool.and_eq_true] at h
      have := List.all_eq_true.mp h.1.1.2 c hc
      simpa using this
  | bool b =>
      cases b with
      | true =>
          rw [show yaml_val (PyVal.bool true) = ['t', 'r', 'u', 'e'] from rfl] at hc
          simp only [List.mem_cons, List.not_mem_nil, or_false] at hc
          rcases hc with rfl | rfl | rfl | rfl <;> decide
      | false =>
          rw [show yaml_val (PyVal.bool false) = ['f', 'a', 'l', 's', 'e'] from rfl] at hc
          simp only [List.mem_cons, List.not_mem_nil, or_false] at hc
          rcases hc with rfl | rfl | rfl | rfl | rfl <;> decide
  | int n => simp [scalarOk] at h
  | list l => simp [scalarOk] at h
  | dict d => simp [scalarOk] at h

theorem lineOk_header (name : String) (h : wordKey name = true) :
    lineOkC (headerLine name) := by
  rw [wordKey, Bool.and_eq_true] at h
  refine ⟨by simp [headerLine], ?_, ?_⟩
  · intro ch hch
    rw [headerLine] at hch
    rcases List.mem_append.mp hch with h2 | h2
    · exact word_ne ch (List.all_eq_true.mp h.2 ch h2) '\n' (by decide)
    · have h3 : ch = ':' := by simpa using h2
      rw [h3]
      decide
  · intro c0 hc0
    cases hd : name.data with
    | nil =>
        rw [hd] at h
        simp at h
    | cons a t =>
        rw [headerLine, hd, List.cons_append] at hc0
        simp only [List.head?_cons, Option.some.injEq] at hc0
        rw [← hc0]
        exact word_ne a (List.all_eq_true.mp h.2 a (by rw [hd]; simp)) '-' (by decide)

theorem lineOk_scalar (k : String) (v : PyVal) (hk : wordKey k = true)
    (hv : scalarOk v = true) : lineOkC (scalarLine k v) := by
  refine ⟨by simp [scalarLine], ?_, ?_⟩
  · intro ch hch
    rw [scalarLine] at hch
    simp only [List.mem_cons, List.mem_append] at hch
    rcases hch with rfl | rfl | h2 | rfl | rfl | h2
    · decide
    · decide
    · rw [wordKey, Bool.and_eq_true] at hk
      exact word_ne ch (List.all_eq_true.mp hk.2 ch h2) '\n' (by decide)
    · decide
    · decide
    · exact yaml_val_nlfree v hv ch h2
  · intro c0 hc0
    rw [scalarLine] at hc0
    simp only [List.head?_cons, Option.some.injEq] at hc0
    rw [← hc0]
    decide

theorem lineOk_listKey (k : String) (hk : wordKey k = true) :
    lineOkC (listKeyLine k) := by
  refine ⟨by simp [listKeyLine], ?_, ?_⟩
  · intro ch hch
    rw [listKeyLine] at hch
    simp only [List.mem_cons, List.mem_append, List.not_mem_nil, or_false] at hch
    rcases hch with rfl | rfl | h2 | rfl
    · decide
    · decide
    · rw [wordKey, Bool.and_eq_true] at hk
      exact word_ne ch (List.all_eq_true.mp hk.2 ch h2) '\n' (by decide)
    · decide
  · intro c0 hc0
    rw [listKeyLine] at hc0
    simp only [List.head?_cons, Option.some.injEq] at hc0
    rw [← hc0]
    decide

theorem lineOk_item (s : String) (h : safeStr s = true) :
    lineOkC (itemLine (PyVal.str s)) := by
  refine ⟨by simp [itemLine], ?_, ?_⟩
  · intro ch hch
    rw [itemLine] at hch
    simp only [List.mem_cons] at hch
    rcases hch with rfl | rfl | rfl | rfl | rfl | rfl | h2
    · decide
    · decide
    · decide
    · decide
    · decide
    · decide
    · simp only [pyStr] at h2
      simp only [safeStr, Bool.and_eq_true] at h
      have := List.all_eq_true.mp h.1.1.2 ch h2
      simpa using this
  · intro c0 hc0
    rw [itemLine] at hc0
    simp only [List.head?_cons, Option.some.injEq] at hc0
    rw [← hc0]
    decide

theorem specLines_ok (specs : List (String × PDict))
    (hwf : ∀ b ∈ specs, wordKey b.1 = true ∧ blockOk structValOk b.2 = true) :
    ∀ l ∈ specLines specs, lineOkC l := by
  intro l hl
  rw [specLines] at hl
  obtain ⟨b, hb, hlb⟩ := List.mem_flatMap.mp hl
  replace hlb : l ∈ (if b.2.isEmpty then ([] : List (List Char))
      else headerLine b.1 :: b.2.flatMap structEntryLines) := hlb
  by_cases hemp : b.2.isEmpty = true
  · rw [if_pos hemp] at hlb
    simp at hlb
  · rw [if_neg hemp] at hlb
    obtain ⟨hbw, hbok⟩ := hwf b hb
    obtain ⟨hewf, _⟩ := blockOk_spec structValOk b.2 hbok
    rcases List.mem_cons.mp hlb with rfl | hl2
    · exact lineOk_header b.1 hbw
    · obtain ⟨e, he, hle⟩ := List.mem_flatMap.mp hl2
      obtain ⟨hkw, hvok⟩ := hewf e he
      rcases e with ⟨k, v⟩
      cases v with
      | str s =>
          have h5 : l = scalarLine k (PyVal.str s) := by
            simpa [structEntryLines] using hle
          rw [h5]
          exact lineOk_scalar k _ hkw hvok
      | bool b2 =>
          have h5 : l = scalarLine k (PyVal.bool b2) := by
            simpa [structEntryLines] using hle
          rw [h5]
          exact lineOk_scalar k _ hkw rfl
      | int n => simp [structValOk, scalarOk] at hvok
      | dict d => simp [structValOk, scalarOk] at hvok
      | list items =>
          simp only [structEntryLines] at hle
          simp only [structValOk, List.all_eq_true] at hvok
          rcases List.mem_cons.mp hle with rfl | hl3
          · exact lineOk_listKey k hkw
          · obtain ⟨it, hit, rfl⟩ := List.mem_map.mp hl3
            have h5 := hvok it hit
            cases it with
            | str s => exact lineOk_item s h5
            | bool b3 => simp at h5
            | int n => simp at h5
            | list l2 => simp at h5
            | dict d2 => simp at h5

theorem specLines_first_head (specs : List (String × PDict))
    (hwf : ∀ b ∈ specs, wordKey b.1 = true) :
    ∀ l0 ls c0, specLines specs = l0 :: ls → l0.head? = some c0 →
      isPySpace c0 = false := by
  induction specs with
  | nil =>
      intro l0 ls c0 h
      simp [specLines] at h
  | cons b rest ih =>
      intro l0 ls c0 h hh
      simp only [specLines, List.flatMap_cons] at h
      by_cases hemp : b.2.isEmpty = true
      · rw [if_pos hemp, List.nil_append] at h
        exact ih (fun b2 h2 => hwf b2 (by simp [h2])) l0 ls c0 (by rw [specLines]; exact h) hh
      · rw [if_neg hemp, List.cons_append] at h
        injection h with h1 h2
        have hbw := hwf b (by simp)
        rw [← h1] at hh
        rw [wordKey, Bool.and_eq_true] at hbw
        cases hd : b.1.data with
        | nil =>
            rw [hd] at hbw
            simp at hbw
        | cons a t =>
            rw [headerLine, hd, List.cons_append] at hh
            simp only [List.head?_cons, Option.some.injEq] at hh
            rw [← hh]
            exact word_not_space a (List.all_eq_true.mp hbw.2 a (by rw [hd]; simp))

theorem blockOk_scalar_struct (d : PDict) (h : blockOk scalarOk d = true) :
    blockOk structValOk d = true := by
  rw [blockOk] at h ⊢
  simp only [Bool.and_eq_true, List.all_eq_true] at h ⊢
  refine ⟨fun e he => ⟨(h.1 e he).1, ?_⟩, h.2⟩
  have h2 := (h.1 e he).2
  rcases e with ⟨k, v⟩
  cases v with
  | str s => exact h2
  | bool b => exact h2
  | int n => simp [scalarOk] at h2
  | list l => simp [scalarOk] at h2
  | dict d2 => simp [scalarOk] at h2

theorem map_scalar_eq_flat (entries : PDict)
    (h : ∀ e ∈ entries, scalarOk e.2 = true) :
    (entries.map fun e => scalarLine e.1 e.2) = entries.flatMap structEntryLines := by
  induction entries with
  | nil => rfl
  | cons e rest ih =>
      rw [List.map_cons, List.flatMap_cons, ih (fun e2 h2 => h e2 (by simp [h2]))]
      have he := h e (by simp)
      rcases e with ⟨k, v⟩
      cases v with
      | str s => rfl
      | bool b => rfl
      | int n => simp [scalarOk] at he
      | list l => simp [scalarOk] at he
      | dict d => simp [scalarOk] at he

theorem render_eq_specLines (stack structure_ disciplines verification : PDict)
    (hs : ∀ e ∈ stack, scalarOk e.2 = true)
    (hv : ∀ e ∈ verification, scalarOk e.2 = true)
    (hd : ∀ e ∈ disciplines, scalarOk e.2 = true) :
    render_config stack structure_ disciplines verification =
      joinNl (["---".data] ++
        (specLines (renderSpecs stack structure_ verification disciplines) ++ trailerLines)) := by
  rw [render_config]
  congr 1
  rw [renderSpecs]
  simp only [specLines, List.flatMap_cons, List.flatMap_nil, List.append_nil]
  rw [stackLines, structureLines, verificationLines, disciplinesLines]
  rw [map_scalar_eq_flat stack hs, map_scalar_eq_flat verification hv,
    map_scalar_eq_flat disciplines hd]
  simp [List.append_assoc]

set_option maxRecDepth 100000 in
/-- C1 (corrected): feeding the output of render_config to parse_frontmatter
reproduces every block exactly — any subset of the four blocks may be empty
and omitted — provided keys are non-empty word-character strings, distinct
per block, and every string value or list item is non-empty, newline-free,
strip-invariant and left alone by the value coercion. The uncorrected claim
fails because coercion rewrites digit strings, quoted strings, empty strings
and boolean literals (see the counterexample). -/
theorem C1_roundtrip (stack structure_ disciplines verification : PDict)
    (hs : blockOk scalarOk stack = true)
    (hst : blockOk structValOk structure_ = true)
    (hv : blockOk scalarOk verification = true)
    (hd : blockOk scalarOk disciplines = true) :
    parse_frontmatter (render_config stack structure_ disciplines verification) =
      expectedRoundTrip stack structure_ verification disciplines := by
  have hs' := blockOk_spec scalarOk stack hs
  have hv' := blockOk_spec scalarOk verification hv
  have hd' := blockOk_spec scalarOk disciplines hd
  rw [render_eq_specLines stack structure_ disciplines verification
    (fun e he => (hs'.1 e he).2) (fun e he => (hv'.1 e he).2) (fun e he => (hd'.1 e he).2)]
  have hwfspecs : ∀ b ∈ renderSpecs stack structure_ verification disciplines,
      wordKey b.1 = true ∧ blockOk structValOk b.2 = true := by
    intro b hb
    rw [renderSpecs] at hb
    simp only [List.mem_cons, List.not_mem_nil, or_false] at hb
    rcases hb with rfl | rfl | rfl | rfl
    · exact ⟨(by decide : wordKey "stack" = true), blockOk_scalar_struct stack hs⟩
    · exact ⟨(by decide : wordKey "structure" = true), hst⟩
    · exact ⟨(by decide : wordKey "verification" = true), blockOk_scalar_struct verification hv⟩
    · exact ⟨(by decide : wordKey "disciplines" = true), blockOk_scalar_struct disciplines hd⟩
  by_cases hall : specLines (renderSpecs stack structure_ verification disciplines) = []
  · have h4 : stack.isEmpty = true ∧ structure_.isEmpty = true ∧
        verification.isEmpty = true ∧ disciplines.isEmpty = true := by
      rw [specLines, renderSpecs] at hall
      simp only [List.flatMap_cons, List.flatMap_nil, List.append_nil,
        List.append_eq_nil] at hall
      obtain ⟨h1, h2, h3, h4⟩ := hall
      have get1 : stack.isEmpty = true := by
        by_cases hq : stack.isEmpty = true
        · exact hq
        · rw [if_neg hq] at h1
          simp at h1
      have get2 : structure_.isEmpty = true := by
        by_cases hq : structure_.isEmpty = true
        · exact hq
        · rw [if_neg hq] at h2
          simp at h2
      have get3 : verification.isEmpty = true := by
        by_cases hq : verification.isEmpty = true
        · exact hq
        · rw [if_neg hq] at h3
          simp at h3
      have get4 : disciplines.isEmpty = true := by
        by_cases hq : disciplines.isEmpty = true
        · exact hq
        · rw [if_neg hq] at h4
          simp at h4
      exact ⟨get1, get2, get3, get4⟩
    rw [hall]
    rw [show parse_frontmatter (joinNl (["---".data] ++ ([] ++ trailerLines))) = [] from rfl]
    simp [expectedRoundTrip, expectedBlock, h4.1, h4.2.1, h4.2.2.1, h4.2.2.2]
  · rcases hsl : specLines (renderSpecs stack structure_ verification disciplines)
      with _ | ⟨l0, ls⟩
    · exact absurd hsl hall
    · rw [← hsl]
      have hok := specLines_ok _ hwfspecs
      have hl0mem : l0 ∈ specLines (renderSpecs stack structure_ verification disciplines) := by
        rw [hsl]
        simp
      obtain ⟨hl0ne, _, _⟩ := hok l0 hl0mem
      obtain ⟨c0, l0t, hl0d⟩ : ∃ c t, l0 = c :: t := by
        cases l0 with
        | nil => exact absurd rfl hl0ne
        | cons c t => exact ⟨c, t, rfl⟩
      have hc0 : isPySpace c0 = false :=
        specLines_first_head _ (fun b hb => (hwfspecs b hb).1) l0 ls c0 hsl
          (by rw [hl0d]; rfl)
      have hhead : (joinNl (specLines
          (renderSpecs stack structure_ verification disciplines))).head? = some c0 := by
        obtain ⟨t0, ht0⟩ := joinNl_cons l0 ls
        rw [hsl, ht0, hl0d, List.cons_append]
        rfl
      have hfind : findSub nlMarker (joinNl (specLines
            (renderSpecs stack structure_ verification disciplines)) ++
            '\n' :: joinNl trailerLines) =
          some (joinNl (specLines
            (renderSpecs stack structure_ verification disciplines))).length :=
        findSub_marker _ hok (joinNl trailerLines) (by rfl)
      have hext := extract_body _ (joinNl trailerLines) c0 hhead hc0 hfind
      have htext : joinNl (["---".data] ++
          (specLines (renderSpecs stack structure_ verification disciplines)
            ++ trailerLines)) =
          dashMarker ++ '\n' :: (joinNl (specLines
            (renderSpecs stack structure_ verification disciplines)) ++
            '\n' :: joinNl trailerLines) := by
        rw [joinNl_append ["---".data] _ (by simp) (by rw [hsl]; simp)]
        rw [joinNl_append _ trailerLines (by rw [hsl]; simp) (by simp [trailerLines])]
        rfl
      rw [htext, parse_frontmatter, hext]
      show (processLines (splitNl (joinNl (specLines
          (renderSpecs stack structure_ verification disciplines)))) ⟨[], none, none⟩).result =
        expectedRoundTrip stack structure_ verification disciplines
      rw [splitNl_joinNl _ (fun l hl c hc => (hok l hl).2.1 c hc) (by rw [hsl]; simp)]
      have hpw : List.Pairwise (fun a b => a.1 ≠ b.1)
          (renderSpecs stack structure_ verification disciplines) := by
        rw [renderSpecs]
        simp [List.pairwise_cons]
      obtain ⟨p1, cl1, hrun⟩ := run_specs _ hwfspecs hpw [] none none (by simp)
      rw [hrun]
      simp [specExpected, renderSpecs, expectedRoundTrip, expectedBlock]

set_option maxRecDepth 100000 in
/-- Witness for C1: a concrete document with all four blocks populated,
including a list-valued structure entry, survives the round trip. -/
theorem C1_roundtrip_witness :
    blockOk scalarOk [("language", PyVal.str "typescript"),
      ("monorepo", PyVal.bool true)] = true ∧
    blockOk structValOk [("shared_packages",
      PyVal.list [PyVal.str "packages/ui", PyVal.str "packages/i18n"])] = true ∧
    blockOk scalarOk [("test", PyVal.str "npm test")] = true ∧
    blockOk scalarOk [("plan_enforcement", PyVal.bool true)] = true ∧
    parse_frontmatter (render_config
      [("language", PyVal.str "typescript"), ("monorepo", PyVal.bool true)]
      [("shared_packages", PyVal.list [PyVal.str "packages/ui", PyVal.str "packages/i18n"])]
      [("plan_enforcement", PyVal.bool true)]
      [("test", PyVal.str "npm test")]) =
    expectedRoundTrip
      [("language", PyVal.str "typescript"), ("monorepo", PyVal.bool true)]
      [("shared_packages", PyVal.list [PyVal.str "packages/ui", PyVal.str "packages/i18n"])]
      [("test", PyVal.str "npm test")]
      [("plan_enforcement", PyVal.bool true)] :=
  ⟨by decide, by decide, by decide, by decide,
   C1_roundtrip _ _ _ _ (by decide) (by decide) (by decide) (by decide)⟩
